import Mathlib

/-! # simswap: a two-asset constant-product pool (package `coin`)

Shallow embedding of `src/coin/coinpair.go` and `src/coin/marketmaker.go`, twice.

* In exact arithmetic (`coin.Coin`, `coin.CoinPair.Send`, ...): `float64` amounts are exact
  rationals (`ℚ`), the arithmetic the program would perform without rounding.  Every division goes
  through `fdiv`; a run that divides by zero, where Go yields an infinity or a NaN that no
  rational stands for, has the outcome `none`, and `some r` is a run that ends with the Go
  result `r`.
* In float64 (`coin.B64.Coin`, `coin.B64.CoinPair.Send`, ...): every operation is rounded as
  IEEE 754 binary64 rounds it (`coin.F64`: nearest, ties to even, gradual underflow, signed
  zeros, infinities, NaN), one operation at a time, without fused multiply-add.  Every run has a
  result.

Where rounding or a zero divisor decides a property, it is stated on the float64 embedding; a
property that holds of the arithmetic but not of its rounding is stated on the exact one and
says so.

Conventions common to both.

* A Go `error` is `Option String`: `none` is `nil`, `some msg` carries the text
  given to `fmt.Errorf`.
* `*Coin` pointers into a pool or a market maker are `Slot`s (which of the two
  coin objects is pointed at), so that two pointers to the same coin alias.
* The Go map `makers` is an association list; the program only looks keys up,
  inserts absent keys and ranges over all entries.
* A method with a pointer receiver takes the pool and returns the new pool
  next to its Go results.
-/

namespace coin

/-- Coin represents a coin. -/
structure Coin where
  Name : String
  Amount : ℚ
  deriving DecidableEq, Repr

/-- Add: `c.Amount += value`. -/
def Coin.Add (c : Coin) (value : ℚ) : Coin :=
  { c with Amount := c.Amount + value }

/-- Del: `if value <= c.Amount { c.Amount -= value }`. -/
def Coin.Del (c : Coin) (value : ℚ) : Coin :=
  if value ≤ c.Amount then { c with Amount := c.Amount - value } else c

/-- MarketMaker: a liquidity provider with its two stakes. -/
structure MarketMaker where
  Name : String
  CoinA : Coin
  CoinB : Coin
  deriving DecidableEq, Repr

/-- CoinPair represents a pair of coins. -/
structure CoinPair where
  CoinA : Coin
  CoinB : Coin
  totalK : ℚ
  feeRate : ℚ
  fees : ℚ
  makers : List (String × MarketMaker)
  deriving DecidableEq, Repr

/-- Which of the two coin objects of a pool (or of a market maker) a `*Coin` points at. -/
inductive Slot where
  | A
  | B
  deriving DecidableEq, Repr

/-- Division of two `float64`s, defined when the divisor is not zero. -/
def fdiv (x y : ℚ) : Option ℚ :=
  if y = 0 then none else some (x / y)

/-- Dereference of a coin pointer of a pool. -/
def CoinPair.coin (cp : CoinPair) : Slot → Coin
  | Slot.A => cp.CoinA
  | Slot.B => cp.CoinB

/-- Update of the coin a pointer of a pool points at. -/
def CoinPair.modifyCoin (cp : CoinPair) (s : Slot) (f : Coin → Coin) : CoinPair :=
  match s with
  | Slot.A => { cp with CoinA := f cp.CoinA }
  | Slot.B => { cp with CoinB := f cp.CoinB }

/-- Dereference of a coin pointer of a market maker. -/
def MarketMaker.coin (mm : MarketMaker) : Slot → Coin
  | Slot.A => mm.CoinA
  | Slot.B => mm.CoinB

/-- Update of the coin a pointer of a market maker points at. -/
def MarketMaker.modifyCoin (mm : MarketMaker) (s : Slot) (f : Coin → Coin) : MarketMaker :=
  match s with
  | Slot.A => { mm with CoinA := f mm.CoinA }
  | Slot.B => { mm with CoinB := f mm.CoinB }

/-- MarketMaker.getCoin: `switch name { case mm.CoinA.Name: ...; case mm.CoinB.Name: ...; default: error }`. -/
def MarketMaker.getCoin (mm : MarketMaker) (name : String) : Except String Slot :=
  if name = mm.CoinA.Name then Except.ok Slot.A
  else if name = mm.CoinB.Name then Except.ok Slot.B
  else Except.error "failed to get coin: illegal coin name"

/-- CoinPair.getCoin: `switch name { case cp.CoinA.Name: ...; case cp.CoinB.Name: ...; default: error }`. -/
def CoinPair.getCoin (cp : CoinPair) (name : String) : Except String Slot :=
  if name = cp.CoinA.Name then Except.ok Slot.A
  else if name = cp.CoinB.Name then Except.ok Slot.B
  else Except.error "failed to get coin: illegal coin name"

/-- CoinPair.checkk: `CoinB.Amount*CoinA.Amount != totalK` is the error "invalid k". -/
def CoinPair.checkk (cp : CoinPair) : Option String :=
  if cp.CoinB.Amount * cp.CoinA.Amount ≠ cp.totalK then some "invalid k" else none

/-- CoinPair.updatek: `totalK = CoinB.Amount * CoinA.Amount`. -/
def CoinPair.updatek (cp : CoinPair) : CoinPair :=
  { cp with totalK := cp.CoinB.Amount * cp.CoinA.Amount }

/-- Map lookup `makers[key]`. -/
def lookupMaker (key : String) : List (String × MarketMaker) → Option MarketMaker
  | [] => none
  | (k, m) :: rest => if key = k then some m else lookupMaker key rest

/-- Update in place of the record stored under `key`, as done through the stored pointer. -/
def modifyMaker (key : String) (f : MarketMaker → MarketMaker) :
    List (String × MarketMaker) → List (String × MarketMaker)
  | [] => []
  | (k, m) :: rest =>
    if key = k then (k, f m) :: rest else (k, m) :: modifyMaker key f rest

/-- CoinPair.addMaker: insert a zero record under an absent name, then add both values to the record. -/
def CoinPair.addMaker (cp : CoinPair) (makerName : String) (valueA valueB : ℚ) : CoinPair :=
  let makers1 :=
    match lookupMaker makerName cp.makers with
    | some _ => cp.makers
    | none =>
      cp.makers ++
        [(makerName,
          { Name := "",
            CoinA := { Name := cp.CoinA.Name, Amount := 0 },
            CoinB := { Name := cp.CoinB.Name, Amount := 0 } })]
  let makers2 := modifyMaker makerName (fun m => { m with CoinA := m.CoinA.Add valueA }) makers1
  let makers3 := modifyMaker makerName (fun m => { m with CoinB := m.CoinB.Add valueB }) makers2
  { cp with makers := makers3 }

/-- First loop of shareFee: the sum of all makers' amounts of the named coin, or the first error. -/
def sumCoins (coinname : String) : List (String × MarketMaker) → ℚ → Except String ℚ
  | [], totalCoins => Except.ok totalCoins
  | (_, v) :: rest, totalCoins =>
    match v.getCoin coinname with
    | Except.error err => Except.error err
    | Except.ok s => sumCoins coinname rest (totalCoins + (v.coin s).Amount)

/-- Second loop of shareFee: `makerCoin.Amount += makerCoin.Amount / totalCoins * fee` for every
maker; the outer `none` is a division by a zero total, the inner result the Go error and the
(possibly partly updated) map. -/
def payFees (coinname : String) (totalCoins fee : ℚ) :
    List (String × MarketMaker) → Option (Option String × List (String × MarketMaker))
  | [] => some (none, [])
  | (k, v) :: rest =>
    match v.getCoin coinname with
    | Except.error err => some (some err, (k, v) :: rest)
    | Except.ok s =>
      match fdiv (v.coin s).Amount totalCoins with
      | none => none
      | some q =>
        let getFee := q * fee
        let v1 := v.modifyCoin s (fun c => { c with Amount := c.Amount + getFee })
        match payFees coinname totalCoins fee rest with
        | none => none
        | some (err, rest1) => some (err, (k, v1) :: rest1)

/-- CoinPair.shareFee: split `fee` over the makers in proportion to their amounts of `coinname`. -/
def CoinPair.shareFee (cp : CoinPair) (coinname : String) (fee : ℚ) :
    Option (Option String × CoinPair) :=
  match sumCoins coinname cp.makers 0 with
  | Except.error err => some (some err, cp)
  | Except.ok totalCoins =>
    match payFees coinname totalCoins fee cp.makers with
    | none => none
    | some (err, makers1) => some (err, { cp with makers := makers1 })

/-- CoinPair.Send: exchange `value` of the coin named `src` for the coin named `dst`.
The Go results `(float64, error)` come first, the pool after the call second. -/
def CoinPair.Send (cp : CoinPair) (src dst : String) (value : ℚ) :
    Option ((ℚ × Option String) × CoinPair) :=
  match cp.getCoin src with
  | Except.error err => some ((0, some err), cp)
  | Except.ok fromCoin =>
    match cp.getCoin dst with
    | Except.error err => some ((0, some err), cp)
    | Except.ok toCoin =>
      if (cp.coin fromCoin).Amount - value < 0 then
        some ((0, some "no enough coin to send"), cp)
      else
        let fee := cp.feeRate * value
        let value1 := value - fee
        match fdiv cp.totalK ((cp.coin fromCoin).Amount + value1) with
        | none => none
        | some newAmountOfTo =>
          let getToCoin := newAmountOfTo - (cp.coin toCoin).Amount
          let cp1 := cp.modifyCoin fromCoin (fun c => c.Add value1)
          let cp2 := cp1.modifyCoin toCoin (fun c => c.Del getToCoin)
          match cp2.checkk with
          | some err =>
            let cp3 := cp2.modifyCoin fromCoin (fun c => c.Del value1)
            let cp4 := cp3.modifyCoin toCoin (fun c => c.Add getToCoin)
            some ((0, some err), cp4)
          | none =>
            match cp2.shareFee src fee with
            | none => none
            | some (_, cp5) => some ((getToCoin, none), cp5)

/-- CoinPair.AddLiquid: a two-sided deposit in the pool's current ratio; the two coin names are
not used by the body. -/
def CoinPair.AddLiquid (cp : CoinPair) (_coinA : String) (valueA : ℚ) (_coinB : String)
    (valueB : ℚ) (makerName : String) : Option (Option String × CoinPair) :=
  match fdiv valueA valueB, fdiv cp.CoinA.Amount cp.CoinB.Amount with
  | some r1, some r2 =>
    if r1 ≠ r2 then some (some "invalid ratio of coin pair", cp)
    else
      let cp1 := { cp with CoinA := cp.CoinA.Add valueA }
      let cp2 := { cp1 with CoinB := cp1.CoinB.Add valueB }
      let cp3 := cp2.updatek
      some (none, cp3.addMaker makerName valueA valueB)
  | _, _ => none

/-- The pieces of a string between the occurrences of `sep`: `strings.Split` of the Go standard
library for a one-character separator, on lists of characters. -/
def splitOnChar (sep : Char) : List Char → List (List Char)
  | [] => [[]]
  | c :: cs =>
    if c = sep then [] :: splitOnChar sep cs
    else
      match splitOnChar sep cs with
      | [] => [[c]]
      | piece :: pieces => (c :: piece) :: pieces

/-- NewCoinPair returns a CoinPair instance: for the name `eth-mtv` coin A is `eth` and coin B
is `mtv`. -/
def NewCoinPair (name : String) (A B fee : ℚ) (makerName : String) : Except String CoinPair :=
  match (splitOnChar '-' name.data).map String.mk with
  | [nameA, nameB] =>
    let cp : CoinPair :=
      { CoinA := { Name := nameA, Amount := A },
        CoinB := { Name := nameB, Amount := B },
        totalK := A * B,
        feeRate := fee,
        fees := 0,
        makers := [] }
    Except.ok (cp.addMaker makerName A B)
  | _ => Except.error "faild to create new coin pair: illegal coin name"

/-- CoinPair.GetAddNum: the amount of the other coin to deposit next to `value` of the coin named
`coinname`.  The body only reads the pool; the pool after the call is returned next to the Go
results `(float64, error)`. -/
def CoinPair.GetAddNum (cp : CoinPair) (coinname : String) (value : ℚ) :
    Option ((ℚ × Option String) × CoinPair) :=
  match cp.getCoin coinname with
  | Except.error err => some ((0, some err), cp)
  | Except.ok coin =>
    let calCoin := if (cp.coin coin).Name = cp.CoinA.Name then cp.CoinB else cp.CoinA
    match fdiv calCoin.Amount (cp.coin coin).Amount with
    | none => none
    | some exRate => some ((exRate * value, none), cp)

/-- CoinPair.GetMaker: the record stored under `makerName`, or the error "no maker". -/
def CoinPair.GetMaker (cp : CoinPair) (makerName : String) : Except String MarketMaker :=
  match lookupMaker makerName cp.makers with
  | some maker => Except.ok maker
  | none => Except.error "no maker"

/-! ### Notions used to state the properties -/

/-- The other coin object. -/
def Slot.other : Slot → Slot
  | Slot.A => Slot.B
  | Slot.B => Slot.A

/-- One step of the second loop of shareFee on a map entry, for a total that is not zero: the
coin that `getCoin coinname` selects receives `Amount / totalCoins * fee`. -/
def creditMaker (coinname : String) (totalCoins fee : ℚ) (e : String × MarketMaker) :
    String × MarketMaker :=
  match e.2.getCoin coinname with
  | Except.ok s =>
    (e.1, e.2.modifyCoin s (fun c => { c with Amount := c.Amount + c.Amount / totalCoins * fee }))
  | Except.error _ => e

/-! ### Pools used as concrete inputs -/

/-- The pool that `NewCoinPair "A-B" 1000 1000 (3/1000) "p0"` builds. -/
def poolAB : CoinPair :=
  { CoinA := ⟨"A", 1000⟩, CoinB := ⟨"B", 1000⟩, totalK := 1000000, feeRate := 3/1000, fees := 0,
    makers := [("p0", ⟨"", ⟨"A", 1000⟩, ⟨"B", 1000⟩⟩)] }

/-- The pool that `NewCoinPair "A-B" 1 100 0 "p0"` builds. -/
def poolA1B100 : CoinPair :=
  { CoinA := ⟨"A", 1⟩, CoinB := ⟨"B", 100⟩, totalK := 100, feeRate := 0, fees := 0,
    makers := [("p0", ⟨"", ⟨"A", 1⟩, ⟨"B", 100⟩⟩)] }

/-- The pool that `NewCoinPair "A-B" 1 4 0 "p0"` builds. -/
def poolA1B4 : CoinPair :=
  { CoinA := ⟨"A", 1⟩, CoinB := ⟨"B", 4⟩, totalK := 4, feeRate := 0, fees := 0,
    makers := [("p0", ⟨"", ⟨"A", 1⟩, ⟨"B", 4⟩⟩)] }

/-- The pool that `NewCoinPair "A-B" 1000 0 (3/1000) "p0"` builds: nothing of coin B is held. -/
def poolA1000B0 : CoinPair :=
  { CoinA := ⟨"A", 1000⟩, CoinB := ⟨"B", 0⟩, totalK := 0, feeRate := 3/1000, fees := 0,
    makers := [("p0", ⟨"", ⟨"A", 1000⟩, ⟨"B", 0⟩⟩)] }

/-- The pool `poolA1000B0` after `Send "A" "B" 100`. -/
def poolA1000B0_sent : CoinPair :=
  { CoinA := ⟨"A", 10997/10⟩, CoinB := ⟨"B", 0⟩, totalK := 0, feeRate := 3/1000, fees := 0,
    makers := [("p0", ⟨"", ⟨"A", 10003/10⟩, ⟨"B", 0⟩⟩)] }

/-- The pool `poolAB` after `AddLiquid "A" 500 "B" 500 "p1"`. -/
def poolAB_added : CoinPair :=
  { CoinA := ⟨"A", 1500⟩, CoinB := ⟨"B", 1500⟩, totalK := 2250000, feeRate := 3/1000, fees := 0,
    makers := [("p0", ⟨"", ⟨"A", 1000⟩, ⟨"B", 1000⟩⟩), ("p1", ⟨"", ⟨"A", 500⟩, ⟨"B", 500⟩⟩)] }

/-- A pool holding 1000 A and 2000 B, with the single maker p0. -/
def poolA1000B2000 : CoinPair :=
  { CoinA := ⟨"A", 1000⟩, CoinB := ⟨"B", 2000⟩, totalK := 2000000, feeRate := 3/1000, fees := 0,
    makers := [("p0", ⟨"", ⟨"A", 1000⟩, ⟨"B", 2000⟩⟩)] }

/-- The pool `poolA1000B2000` after a deposit of 500 A and 1000 B by the new maker p1. -/
def poolA1000B2000_added : CoinPair :=
  { CoinA := ⟨"A", 1500⟩, CoinB := ⟨"B", 3000⟩, totalK := 4500000, feeRate := 3/1000, fees := 0,
    makers := [("p0", ⟨"", ⟨"A", 1000⟩, ⟨"B", 2000⟩⟩), ("p1", ⟨"", ⟨"A", 500⟩, ⟨"B", 1000⟩⟩)] }

/-- A pool of 1000 A and 1000 B with two makers: p0 holds 600/600 and p1 holds 400/400. -/
def poolTwoMakers : CoinPair :=
  { CoinA := ⟨"A", 1000⟩, CoinB := ⟨"B", 1000⟩, totalK := 1000000, feeRate := 3/1000, fees := 0,
    makers := [("p0", ⟨"", ⟨"A", 600⟩, ⟨"B", 600⟩⟩), ("p1", ⟨"", ⟨"A", 400⟩, ⟨"B", 400⟩⟩)] }

/-- The pool `poolTwoMakers` after `shareFee "A" 10`. -/
def poolTwoMakers_paid : CoinPair :=
  { CoinA := ⟨"A", 1000⟩, CoinB := ⟨"B", 1000⟩, totalK := 1000000, feeRate := 3/1000, fees := 0,
    makers := [("p0", ⟨"", ⟨"A", 606⟩, ⟨"B", 600⟩⟩), ("p1", ⟨"", ⟨"A", 404⟩, ⟨"B", 400⟩⟩)] }

/-- The pool that `NewCoinPair "A-B" 0 1000 (3/1000) "p0"` builds: the only maker holds no A. -/
def poolA0B1000 : CoinPair :=
  { CoinA := ⟨"A", 0⟩, CoinB := ⟨"B", 1000⟩, totalK := 0, feeRate := 3/1000, fees := 0,
    makers := [("p0", ⟨"", ⟨"A", 0⟩, ⟨"B", 1000⟩⟩)] }

/-- A pool of 1000 A and 1000 B without any maker. -/
def poolNoMakers : CoinPair :=
  { CoinA := ⟨"A", 1000⟩, CoinB := ⟨"B", 1000⟩, totalK := 1000000, feeRate := 3/1000, fees := 0,
    makers := [] }

/-! ### float64

The values and operations of IEEE 754 binary64 as Go uses them: round to nearest, ties to even,
gradual underflow, signed zeros, infinities and NaN. A finite value is its rational value. -/

/-- A float64 value: a finite number (`fin 0` is +0), the negative zero, an infinity with its
sign bit, or a NaN. -/
inductive F64 where
  | fin (q : ℚ)
  | negZero
  | inf (neg : Bool)
  | nan
  deriving DecidableEq, Repr

namespace F64

/-- The power `2 ^ k` as a rational. -/
def pow2 (k : ℤ) : ℚ :=
  if 0 ≤ k then ((2 ^ k.toNat : ℕ) : ℚ) else 1 / ((2 ^ (-k).toNat : ℕ) : ℚ)

/-- The number of binary digits of `n`, by halving at most `fuel` times. -/
def bitLength : ℕ → ℕ → ℕ
  | 0, _ => 0
  | fuel + 1, n => if n = 0 then 0 else bitLength fuel (n / 2) + 1

/-- The exponent `e` with `2 ^ e ≤ a < 2 ^ (e + 1)` of a positive rational `a`. -/
def ilog2 (a : ℚ) : ℤ :=
  let k : ℤ := (bitLength a.num.natAbs a.num.natAbs : ℤ) - (bitLength a.den a.den : ℤ)
  if pow2 k ≤ a then k else k - 1

/-- Rounding of a positive rational to the nearest multiple of the unit in the last place of
its binade (53 significant bits, exponent not below -1022), ties to the even multiple. -/
def roundPos (a : ℚ) : ℚ :=
  let e := max (ilog2 a) (-1022)
  let u := pow2 (e - 52)
  let m := a / u
  let f : ℤ := m.num / (m.den : ℤ)
  let rest := m - (f : ℚ)
  let n : ℤ :=
    if rest < 1 / 2 then f
    else if 1 / 2 < rest then f + 1
    else if f % 2 = 0 then f else f + 1
  (n : ℚ) * u

/-- The float64 nearest to the exact result `q`; `negIfZero` is the sign bit given to a zero
result. A magnitude that rounds to `2 ^ 1024` or more is an infinity. -/
def round (q : ℚ) (negIfZero : Bool) : F64 :=
  if q = 0 then (if negIfZero then negZero else fin 0)
  else
    let r := roundPos |q|
    if pow2 1024 ≤ r then inf (decide (q < 0))
    else if r = 0 then (if decide (q < 0) then negZero else fin 0)
    else fin (if q < 0 then -r else r)

/-- The sign bit. -/
def signBit : F64 → Bool
  | fin q => decide (q < 0)
  | negZero => true
  | inf neg => neg
  | nan => false

/-- The value of a finite float64 (zero for the others). -/
def toRat : F64 → ℚ
  | fin q => q
  | _ => 0

/-- Whether the value is a zero of either sign. -/
def isZero : F64 → Bool
  | fin q => decide (q = 0)
  | negZero => true
  | _ => false

/-- Unary minus. -/
def neg : F64 → F64
  | fin q => if q = 0 then negZero else fin (-q)
  | negZero => fin 0
  | inf s => inf (!s)
  | nan => nan

/-- Go `x + y`. -/
def add : F64 → F64 → F64
  | nan, _ => nan
  | _, nan => nan
  | inf s, inf t => if s = t then inf s else nan
  | inf s, _ => inf s
  | _, inf t => inf t
  | x, y => round (x.toRat + y.toRat) (x.signBit && y.signBit)

/-- Go `x - y`. -/
def sub (x y : F64) : F64 := add x (neg y)

/-- Go `x * y`. -/
def mul : F64 → F64 → F64
  | nan, _ => nan
  | _, nan => nan
  | inf s, y => if y.isZero then nan else inf (xor s y.signBit)
  | x, inf t => if x.isZero then nan else inf (xor x.signBit t)
  | x, y => round (x.toRat * y.toRat) (xor x.signBit y.signBit)

/-- Go `x / y`. -/
def div : F64 → F64 → F64
  | nan, _ => nan
  | _, nan => nan
  | inf _, inf _ => nan
  | inf s, y => inf (xor s y.signBit)
  | x, inf t => if xor x.signBit t then negZero else fin 0
  | x, y =>
    if y.isZero then (if x.isZero then nan else inf (xor x.signBit y.signBit))
    else round (x.toRat / y.toRat) (xor x.signBit y.signBit)

/-- Go `x <= y`. -/
def le : F64 → F64 → Bool
  | nan, _ => false
  | _, nan => false
  | inf true, _ => true
  | _, inf false => true
  | inf false, _ => false
  | _, inf true => false
  | x, y => decide (x.toRat ≤ y.toRat)

/-- Go `x < y`. -/
def lt : F64 → F64 → Bool
  | nan, _ => false
  | _, nan => false
  | inf s, inf t => s && !t
  | inf true, _ => true
  | _, inf false => true
  | inf false, _ => false
  | _, inf true => false
  | x, y => decide (x.toRat < y.toRat)

/-- Go `x != y`: true when either side is a NaN; the two zeros are equal. -/
def ne : F64 → F64 → Bool
  | nan, _ => true
  | _, nan => true
  | inf s, inf t => s != t
  | inf _, _ => true
  | _, inf _ => true
  | x, y => decide (x.toRat ≠ y.toRat)

/-- The float64 written as a decimal or integer constant `q`. -/
def lit (q : ℚ) : F64 := round q false

end F64

/-! ### The program over float64

The same functions with every `float64` operation rounded as the machine rounds it (`F64`), one
operation at a time; nothing is undefined here, a zero divisor gives an infinity or a NaN and
the run goes on. The map `makers` is ranged over in list order. -/

namespace B64

/-- Coin represents a coin. -/
structure Coin where
  Name : String
  Amount : F64
  deriving DecidableEq, Repr

/-- Add: `c.Amount += value`. -/
def Coin.Add (c : Coin) (value : F64) : Coin :=
  { c with Amount := F64.add c.Amount value }

/-- Del: `if value <= c.Amount { c.Amount -= value }`. -/
def Coin.Del (c : Coin) (value : F64) : Coin :=
  if F64.le value c.Amount then { c with Amount := F64.sub c.Amount value } else c

/-- MarketMaker: a liquidity provider with its two stakes. -/
structure MarketMaker where
  Name : String
  CoinA : Coin
  CoinB : Coin
  deriving DecidableEq, Repr

/-- CoinPair represents a pair of coins. -/
structure CoinPair where
  CoinA : Coin
  CoinB : Coin
  totalK : F64
  feeRate : F64
  fees : F64
  makers : List (String × MarketMaker)
  deriving DecidableEq, Repr

/-- Dereference of a coin pointer of a pool. -/
def CoinPair.coin (cp : CoinPair) : Slot → Coin
  | Slot.A => cp.CoinA
  | Slot.B => cp.CoinB

/-- Update of the coin a pointer of a pool points at. -/
def CoinPair.modifyCoin (cp : CoinPair) (s : Slot) (f : Coin → Coin) : CoinPair :=
  match s with
  | Slot.A => { cp with CoinA := f cp.CoinA }
  | Slot.B => { cp with CoinB := f cp.CoinB }

/-- Dereference of a coin pointer of a market maker. -/
def MarketMaker.coin (mm : MarketMaker) : Slot → Coin
  | Slot.A => mm.CoinA
  | Slot.B => mm.CoinB

/-- Update of the coin a pointer of a market maker points at. -/
def MarketMaker.modifyCoin (mm : MarketMaker) (s : Slot) (f : Coin → Coin) : MarketMaker :=
  match s with
  | Slot.A => { mm with CoinA := f mm.CoinA }
  | Slot.B => { mm with CoinB := f mm.CoinB }

/-- MarketMaker.getCoin: `switch name { case mm.CoinA.Name: ...; case mm.CoinB.Name: ...; default: error }`. -/
def MarketMaker.getCoin (mm : MarketMaker) (name : String) : Except String Slot :=
  if name = mm.CoinA.Name then Except.ok Slot.A
  else if name = mm.CoinB.Name then Except.ok Slot.B
  else Except.error "failed to get coin: illegal coin name"

/-- CoinPair.getCoin: `switch name { case cp.CoinA.Name: ...; case cp.CoinB.Name: ...; default: error }`. -/
def CoinPair.getCoin (cp : CoinPair) (name : String) : Except String Slot :=
  if name = cp.CoinA.Name then Except.ok Slot.A
  else if name = cp.CoinB.Name then Except.ok Slot.B
  else Except.error "failed to get coin: illegal coin name"

/-- CoinPair.checkk: `CoinB.Amount*CoinA.Amount != totalK` is the error "invalid k". -/
def CoinPair.checkk (cp : CoinPair) : Option String :=
  if F64.ne (F64.mul cp.CoinB.Amount cp.CoinA.Amount) cp.totalK then some "invalid k" else none

/-- CoinPair.updatek: `totalK = CoinB.Amount * CoinA.Amount`. -/
def CoinPair.updatek (cp : CoinPair) : CoinPair :=
  { cp with totalK := F64.mul cp.CoinB.Amount cp.CoinA.Amount }

/-- Map lookup `makers[key]`. -/
def lookupMaker (key : String) : List (String × MarketMaker) → Option MarketMaker
  | [] => none
  | (k, m) :: rest => if key = k then some m else lookupMaker key rest

/-- Update in place of the record stored under `key`, as done through the stored pointer. -/
def modifyMaker (key : String) (f : MarketMaker → MarketMaker) :
    List (String × MarketMaker) → List (String × MarketMaker)
  | [] => []
  | (k, m) :: rest =>
    if key = k then (k, f m) :: rest else (k, m) :: modifyMaker key f rest

/-- CoinPair.addMaker: insert a zero record under an absent name, then add both values to the record. -/
def CoinPair.addMaker (cp : CoinPair) (makerName : String) (valueA valueB : F64) : CoinPair :=
  let makers1 :=
    match lookupMaker makerName cp.makers with
    | some _ => cp.makers
    | none =>
      cp.makers ++
        [(makerName,
          { Name := "",
            CoinA := { Name := cp.CoinA.Name, Amount := F64.fin 0 },
            CoinB := { Name := cp.CoinB.Name, Amount := F64.fin 0 } })]
  let makers2 := modifyMaker makerName (fun m => { m with CoinA := m.CoinA.Add valueA }) makers1
  let makers3 := modifyMaker makerName (fun m => { m with CoinB := m.CoinB.Add valueB }) makers2
  { cp with makers := makers3 }

/-- First loop of shareFee: the sum of all makers' amounts of the named coin, or the first error. -/
def sumCoins (coinname : String) : List (String × MarketMaker) → F64 → Except String F64
  | [], totalCoins => Except.ok totalCoins
  | (_, v) :: rest, totalCoins =>
    match v.getCoin coinname with
    | Except.error err => Except.error err
    | Except.ok s => sumCoins coinname rest (F64.add totalCoins (v.coin s).Amount)

/-- Second loop of shareFee: `makerCoin.Amount += makerCoin.Amount / totalCoins * fee` for every
maker; the result is the Go error and the (possibly partly updated) map. -/
def payFees (coinname : String) (totalCoins fee : F64) :
    List (String × MarketMaker) → Option String × List (String × MarketMaker)
  | [] => (none, [])
  | (k, v) :: rest =>
    match v.getCoin coinname with
    | Except.error err => (some err, (k, v) :: rest)
    | Except.ok s =>
      let getFee := F64.mul (F64.div (v.coin s).Amount totalCoins) fee
      let v1 := v.modifyCoin s (fun c => { c with Amount := F64.add c.Amount getFee })
      ((payFees coinname totalCoins fee rest).1, (k, v1) :: (payFees coinname totalCoins fee rest).2)

/-- CoinPair.shareFee: split `fee` over the makers in proportion to their amounts of `coinname`. -/
def CoinPair.shareFee (cp : CoinPair) (coinname : String) (fee : F64) :
    Option String × CoinPair :=
  match sumCoins coinname cp.makers (F64.fin 0) with
  | Except.error err => (some err, cp)
  | Except.ok totalCoins =>
    ((payFees coinname totalCoins fee cp.makers).1,
      { cp with makers := (payFees coinname totalCoins fee cp.makers).2 })

/-- CoinPair.Send: exchange `value` of the coin named `src` for the coin named `dst`.
The Go results `(float64, error)` come first, the pool after the call second. -/
def CoinPair.Send (cp : CoinPair) (src dst : String) (value : F64) :
    (F64 × Option String) × CoinPair :=
  match cp.getCoin src with
  | Except.error err => ((F64.fin 0, some err), cp)
  | Except.ok fromCoin =>
    match cp.getCoin dst with
    | Except.error err => ((F64.fin 0, some err), cp)
    | Except.ok toCoin =>
      if F64.lt (F64.sub (cp.coin fromCoin).Amount value) (F64.fin 0) then
        ((F64.fin 0, some "no enough coin to send"), cp)
      else
        let fee := F64.mul cp.feeRate value
        let value1 := F64.sub value fee
        let newAmountOfTo := F64.div cp.totalK (F64.add (cp.coin fromCoin).Amount value1)
        let getToCoin := F64.sub newAmountOfTo (cp.coin toCoin).Amount
        let cp1 := cp.modifyCoin fromCoin (fun c => c.Add value1)
        let cp2 := cp1.modifyCoin toCoin (fun c => c.Del getToCoin)
        match cp2.checkk with
        | some err =>
          let cp3 := cp2.modifyCoin fromCoin (fun c => c.Del value1)
          let cp4 := cp3.modifyCoin toCoin (fun c => c.Add getToCoin)
          ((F64.fin 0, some err), cp4)
        | none => ((getToCoin, none), (cp2.shareFee src fee).2)

/-- CoinPair.AddLiquid: a two-sided deposit in the pool's current ratio; the two coin names are
not used by the body. -/
def CoinPair.AddLiquid (cp : CoinPair) (_coinA : String) (valueA : F64) (_coinB : String)
    (valueB : F64) (makerName : String) : Option String × CoinPair :=
  if F64.ne (F64.div valueA valueB) (F64.div cp.CoinA.Amount cp.CoinB.Amount) then
    (some "invalid ratio of coin pair", cp)
  else
    let cp1 := { cp with CoinA := cp.CoinA.Add valueA }
    let cp2 := { cp1 with CoinB := cp1.CoinB.Add valueB }
    let cp3 := cp2.updatek
    (none, cp3.addMaker makerName valueA valueB)

/-- CoinPair.GetAddNum: the amount of the other coin to deposit next to `value` of the coin named
`coinname`; the pool after the call is returned next to the Go results. -/
def CoinPair.GetAddNum (cp : CoinPair) (coinname : String) (value : F64) :
    (F64 × Option String) × CoinPair :=
  match cp.getCoin coinname with
  | Except.error err => ((F64.fin 0, some err), cp)
  | Except.ok coin =>
    let calCoin := if (cp.coin coin).Name = cp.CoinA.Name then cp.CoinB else cp.CoinA
    let exRate := F64.div calCoin.Amount (cp.coin coin).Amount
    ((F64.mul exRate value, none), cp)

/-- NewCoinPair returns a CoinPair instance: for the name `eth-mtv` coin A is `eth` and coin B
is `mtv`. -/
def NewCoinPair (name : String) (A B fee : F64) (makerName : String) : Except String CoinPair :=
  match (splitOnChar '-' name.data).map String.mk with
  | [nameA, nameB] =>
    let cp : CoinPair :=
      { CoinA := { Name := nameA, Amount := A },
        CoinB := { Name := nameB, Amount := B },
        totalK := F64.mul A B,
        feeRate := fee,
        fees := F64.fin 0,
        makers := [] }
    Except.ok (cp.addMaker makerName A B)
  | _ => Except.error "faild to create new coin pair: illegal coin name"

end B64

/-- The float64 pool that `NewCoinPair "A-B" A B fee "p0"` builds: the only maker p0 holds
`0 + A` and `0 + B`. -/
def B64.poolP0 (A B fee : F64) : B64.CoinPair :=
  { CoinA := ⟨"A", A⟩, CoinB := ⟨"B", B⟩, totalK := F64.mul A B, feeRate := fee,
    fees := F64.fin 0,
    makers := [("p0", ⟨"", ⟨"A", F64.add (F64.fin 0) A⟩, ⟨"B", F64.add (F64.fin 0) B⟩⟩)] }

/-- One step of the second loop of the float64 shareFee on a map entry: the coin that
`getCoin coinname` selects receives `Amount / totalCoins * fee`, each operation rounded. -/
def B64.creditMaker (coinname : String) (totalCoins fee : F64) (e : String × B64.MarketMaker) :
    String × B64.MarketMaker :=
  match e.2.getCoin coinname with
  | Except.ok s =>
    (e.1, e.2.modifyCoin s (fun c =>
      { c with Amount := F64.add c.Amount (F64.mul (F64.div c.Amount totalCoins) fee) }))
  | Except.error _ => e

/-- The float64 pool of `NewCoinPair "A-B" 1000 1000 0.003 "p0"`. -/
def B64.pool1000 : B64.CoinPair :=
  B64.poolP0 (F64.lit 1000) (F64.lit 1000) (F64.lit (3/1000))

/-- The float64 pool of `NewCoinPair "A-B" 100 0 0.3 "p0"`. -/
def B64.pool100_0 : B64.CoinPair :=
  B64.poolP0 (F64.lit 100) (F64.lit 0) (F64.lit (3/10))

/-- The float64 pool of `NewCoinPair "A-B" 0.7 0.9 0.003 "p0"`. -/
def B64.pool07_09 : B64.CoinPair :=
  B64.poolP0 (F64.lit (7/10)) (F64.lit (9/10)) (F64.lit (3/1000))

/-- The float64 pool of `NewCoinPair "A-B" 3 1 0.003 "p0"`. -/
def B64.pool3_1 : B64.CoinPair :=
  B64.poolP0 (F64.lit 3) (F64.lit 1) (F64.lit (3/1000))

/-- The float64 pool of `NewCoinPair "A-B" 0.1 0.1 0.003 "p0"` after
`AddLiquid "A" 0.3 "B" 0.3 "p1"`: p0 holds 0.1 of each coin and p1 holds 0.3 of each. -/
def B64.pool01_03 : B64.CoinPair :=
  ((B64.poolP0 (F64.lit (1/10)) (F64.lit (1/10)) (F64.lit (3/1000))).AddLiquid
    "A" (F64.lit (3/10)) "B" (F64.lit (3/10)) "p1").2

/-- The float64 pool of `NewCoinPair "A-B" 0 1000 0.003 "p0"`: the only maker holds no A. -/
def B64.pool0_1000 : B64.CoinPair :=
  B64.poolP0 (F64.lit 0) (F64.lit 1000) (F64.lit (3/1000))

/-- The spec's example pool is what the constructor returns. -/
theorem NewCoinPair_poolAB : NewCoinPair "A-B" 1000 1000 (3/1000) "p0" = Except.ok poolAB := by
  simp [NewCoinPair, splitOnChar, CoinPair.addMaker, lookupMaker, modifyMaker, Coin.Add, poolAB]
  norm_num

/-- The only error of `CoinPair.getCoin` is the illegal-name error. -/
theorem getCoin_error (cp : CoinPair) (name e : String)
    (h : cp.getCoin name = Except.error e) : e = "failed to get coin: illegal coin name" := by
  unfold CoinPair.getCoin at h
  split_ifs at h
  injection h with h
  exact h.symm

/-! ### Send: failures before any mutation -/

/-- C3: when both names resolve to coins of the pool and `value` is strictly greater than the
amount of the from-coin, `Send` returns `0` and the error "no enough coin to send", and the pool
(both balances, `totalK`, every maker's stakes) is the pool before the call. -/
theorem Send_insufficient (cp : CoinPair) (src dst : String) (value : ℚ) (fromCoin toCoin : Slot)
    (hfrom : cp.getCoin src = Except.ok fromCoin) (hto : cp.getCoin dst = Except.ok toCoin)
    (hvalue : (cp.coin fromCoin).Amount < value) :
    cp.Send src dst value = some ((0, some "no enough coin to send"), cp) := by
  have hlt : (cp.coin fromCoin).Amount - value < 0 := by linarith
  simp [CoinPair.Send, hfrom, hto, hlt]

/-- C3 at the spec's scenario 2: sending 2000 A on the 1000/1000 pool. -/
theorem Send_insufficient_witness :
    (poolAB.coin Slot.A).Amount < 2000 ∧
      poolAB.Send "A" "B" 2000 = some ((0, some "no enough coin to send"), poolAB) :=
  have h : (poolAB.coin Slot.A).Amount < 2000 := by norm_num [poolAB, CoinPair.coin]
  ⟨h, Send_insufficient poolAB "A" "B" 2000 Slot.A Slot.B (by simp [CoinPair.getCoin, poolAB])
    (by simp [CoinPair.getCoin, poolAB]) h⟩

/-- C4: when `src` or `dst` is the name of neither coin of the pool, `Send` returns `0` and the
error "failed to get coin: illegal coin name", and the pool (both balances, `totalK`, every
maker's stakes) is the pool before the call. -/
theorem Send_unknown_coin (cp : CoinPair) (src dst : String) (value : ℚ)
    (hname : (src ≠ cp.CoinA.Name ∧ src ≠ cp.CoinB.Name) ∨
      (dst ≠ cp.CoinA.Name ∧ dst ≠ cp.CoinB.Name)) :
    cp.Send src dst value = some ((0, some "failed to get coin: illegal coin name"), cp) := by
  rcases hname with ⟨h1, h2⟩ | ⟨h1, h2⟩
  · simp [CoinPair.Send, CoinPair.getCoin, h1, h2]
  · have hdst : cp.getCoin dst = Except.error "failed to get coin: illegal coin name" := by
      simp [CoinPair.getCoin, h1, h2]
    cases hsrc : cp.getCoin src with
    | error e => simp [CoinPair.Send, hsrc, getCoin_error cp src e hsrc]
    | ok s => simp [CoinPair.Send, hsrc, hdst]

/-- C4 on the 1000/1000 pool: the to-name "C" is unknown. -/
theorem Send_unknown_coin_witness :
    ((("A" : String) ≠ poolAB.CoinA.Name ∧ ("A" : String) ≠ poolAB.CoinB.Name) ∨
        (("C" : String) ≠ poolAB.CoinA.Name ∧ ("C" : String) ≠ poolAB.CoinB.Name)) ∧
      poolAB.Send "A" "C" 100 =
        some ((0, some "failed to get coin: illegal coin name"), poolAB) :=
  have h : (("A" : String) ≠ poolAB.CoinA.Name ∧ ("A" : String) ≠ poolAB.CoinB.Name) ∨
      (("C" : String) ≠ poolAB.CoinA.Name ∧ ("C" : String) ≠ poolAB.CoinB.Name) :=
    Or.inr (by simp [poolAB])
  ⟨h, Send_unknown_coin poolAB "A" "C" 100 h⟩

/-! ### Concrete runs -/

/-- The constructor builds `poolA1B100`. -/
theorem NewCoinPair_poolA1B100 : NewCoinPair "A-B" 1 100 0 "p0" = Except.ok poolA1B100 := by
  simp [NewCoinPair, splitOnChar, CoinPair.addMaker, lookupMaker, modifyMaker, Coin.Add,
    poolA1B100]

/-- The constructor builds `poolA1B4`. -/
theorem NewCoinPair_poolA1B4 : NewCoinPair "A-B" 1 4 0 "p0" = Except.ok poolA1B4 := by
  simp [NewCoinPair, splitOnChar, CoinPair.addMaker, lookupMaker, modifyMaker, Coin.Add,
    poolA1B4]

/-- The constructor builds `poolA1000B0`. -/
theorem NewCoinPair_poolA1000B0 :
    NewCoinPair "A-B" 1000 0 (3/1000) "p0" = Except.ok poolA1000B0 := by
  simp [NewCoinPair, splitOnChar, CoinPair.addMaker, lookupMaker, modifyMaker, Coin.Add,
    poolA1000B0]

/-- Sending the coin "A" for itself on `poolA1B4` succeeds, returns 1 and changes nothing. -/
theorem Send_poolA1B4_same : poolA1B4.Send "A" "A" 1 = some ((1, none), poolA1B4) := by
  simp [CoinPair.Send, CoinPair.getCoin, poolA1B4, CoinPair.coin, fdiv, CoinPair.modifyCoin,
    Coin.Add, Coin.Del, CoinPair.checkk, CoinPair.shareFee, sumCoins, payFees,
    MarketMaker.getCoin, MarketMaker.coin, MarketMaker.modifyCoin]
  norm_num

/-- On a pool that holds nothing of coin B, sending 100 A for B succeeds: the new B amount is
`0 / 1099.7 = 0`, nothing is taken from B, and the fee 0.3 goes to the only maker. -/
theorem Send_poolA1000B0 :
    poolA1000B0.Send "A" "B" 100 = some ((0, none), poolA1000B0_sent) := by
  simp [CoinPair.Send, CoinPair.getCoin, poolA1000B0, poolA1000B0_sent, CoinPair.coin, fdiv,
    CoinPair.modifyCoin, Coin.Add, Coin.Del, CoinPair.checkk, CoinPair.shareFee, sumCoins,
    payFees, MarketMaker.getCoin, MarketMaker.coin, MarketMaker.modifyCoin]
  norm_num

/-- C1 (the code departs from it): on the pool of `NewCoinPair "A-B" 1000 1000 (3/1000) "p0"`,
`Send "A" "B" 100` does not succeed with `1000 - 1000000/1099.7`: it returns `0` and the error
"invalid k", and the pool is left as it was. -/
theorem Send_swap100_invalid_k :
    NewCoinPair "A-B" 1000 1000 (3/1000) "p0" = Except.ok poolAB ∧
      poolAB.Send "A" "B" 100 = some ((0, some "invalid k"), poolAB) := by
  refine ⟨NewCoinPair_poolAB, ?_⟩
  simp [CoinPair.Send, CoinPair.getCoin, poolAB, CoinPair.coin, fdiv, CoinPair.modifyCoin,
    Coin.Add, Coin.Del, CoinPair.checkk]
  norm_num

/-- C2 (the code departs from it): on the pool of `NewCoinPair "A-B" 1 100 0 "p0"`,
`Send "A" "A" 1` returns the error "invalid k" and the amount of coin A is 50 after the call,
not the 1 it was before. -/
theorem Send_rollback_same_coin :
    NewCoinPair "A-B" 1 100 0 "p0" = Except.ok poolA1B100 ∧
      poolA1B100.Send "A" "A" 1 =
        some ((0, some "invalid k"), { poolA1B100 with CoinA := ⟨"A", 50⟩ }) ∧
      ({ poolA1B100 with CoinA := ⟨"A", 50⟩ } : CoinPair).CoinA.Amount ≠
        poolA1B100.CoinA.Amount := by
  refine ⟨NewCoinPair_poolA1B100, ?_, ?_⟩
  · simp [CoinPair.Send, CoinPair.getCoin, poolA1B100, CoinPair.coin, fdiv,
      CoinPair.modifyCoin, Coin.Add, Coin.Del, CoinPair.checkk]
    norm_num
  · norm_num [poolA1B100]

/-! ### Pointers into the pool -/

/-- Reading the coin that was just updated. -/
theorem coin_modifyCoin_same (cp : CoinPair) (s : Slot) (f : Coin → Coin) :
    (cp.modifyCoin s f).coin s = f (cp.coin s) := by
  cases s <;> rfl

/-- Reading the coin that was not updated. -/
theorem coin_modifyCoin_other (cp : CoinPair) (s t : Slot) (f : Coin → Coin) (h : s ≠ t) :
    (cp.modifyCoin s f).coin t = cp.coin t := by
  cases s <;> cases t <;> first | rfl | exact absurd rfl h

/-- Updating a coin leaves `totalK` alone. -/
theorem totalK_modifyCoin (cp : CoinPair) (s : Slot) (f : Coin → Coin) :
    (cp.modifyCoin s f).totalK = cp.totalK := by
  cases s <;> rfl

/-- Updating a coin leaves the makers alone. -/
theorem makers_modifyCoin (cp : CoinPair) (s : Slot) (f : Coin → Coin) :
    (cp.modifyCoin s f).makers = cp.makers := by
  cases s <;> rfl

/-- Only the makers are touched by `shareFee`. -/
theorem shareFee_frame (cp : CoinPair) (coinname : String) (fee : ℚ) (err : Option String)
    (cp' : CoinPair) (h : cp.shareFee coinname fee = some (err, cp')) :
    cp'.CoinA = cp.CoinA ∧ cp'.CoinB = cp.CoinB ∧ cp'.totalK = cp.totalK ∧
      cp'.feeRate = cp.feeRate ∧ cp'.fees = cp.fees := by
  unfold CoinPair.shareFee at h
  split at h
  · simp only [Option.some.injEq, Prod.mk.injEq] at h
    obtain ⟨-, rfl⟩ := h
    simp
  · split at h
    · simp at h
    · simp only [Option.some.injEq, Prod.mk.injEq] at h
      obtain ⟨-, rfl⟩ := h
      simp

/-- Coins of the pool after `shareFee`. -/
theorem shareFee_coin (cp : CoinPair) (coinname : String) (fee : ℚ) (err : Option String)
    (cp' : CoinPair) (h : cp.shareFee coinname fee = some (err, cp')) (s : Slot) :
    cp'.coin s = cp.coin s := by
  obtain ⟨hA, hB, -⟩ := shareFee_frame cp coinname fee err cp' h
  cases s
  · exact hA
  · exact hB

/-! ### Send: the successful path -/

/-- What a successful `Send` went through. -/
theorem Send_ok_inv (cp : CoinPair) (src dst : String) (value x : ℚ) (cp' : CoinPair)
    (h : cp.Send src dst value = some ((x, none), cp')) :
    ∃ fromCoin toCoin newAmountOfTo err,
      cp.getCoin src = Except.ok fromCoin ∧ cp.getCoin dst = Except.ok toCoin ∧
      ¬ (cp.coin fromCoin).Amount - value < 0 ∧
      fdiv cp.totalK ((cp.coin fromCoin).Amount + (value - cp.feeRate * value)) =
        some newAmountOfTo ∧
      x = newAmountOfTo - (cp.coin toCoin).Amount ∧
      ((cp.modifyCoin fromCoin (fun c => c.Add (value - cp.feeRate * value))).modifyCoin toCoin
        (fun c => c.Del x)).checkk = none ∧
      ((cp.modifyCoin fromCoin (fun c => c.Add (value - cp.feeRate * value))).modifyCoin toCoin
        (fun c => c.Del x)).shareFee src (cp.feeRate * value) = some (err, cp') := by
  unfold CoinPair.Send at h
  cases hsrc : cp.getCoin src with
  | error e => simp [hsrc] at h
  | ok fromCoin =>
    cases hdst : cp.getCoin dst with
    | error e => simp [hsrc, hdst] at h
    | ok toCoin =>
      simp only [hsrc, hdst] at h
      split_ifs at h with hlt
      · simp at h
      · split at h
        · simp at h
        · rename_i newAmountOfTo hdiv
          split at h
          · simp at h
          · rename_i hck
            split at h
            · simp at h
            · rename_i err cp5 hshare
              simp only [Option.some.injEq, Prod.mk.injEq, and_true] at h
              obtain ⟨hx, hcp⟩ := h
              subst hx hcp
              exact ⟨fromCoin, toCoin, newAmountOfTo, err, rfl, rfl, hlt, hdiv, rfl, hck, hshare⟩

/-- C5 (as stated, refuted): `Send "A" "A" 1` on the pool of `NewCoinPair "A-B" 1 4 0 "p0"`
succeeds, and the amount of the from-coin A after the call is still 1, not `1 + 1 * (1 - 0)`. -/
theorem Send_same_coin_from_balance :
    NewCoinPair "A-B" 1 4 0 "p0" = Except.ok poolA1B4 ∧
      poolA1B4.getCoin "A" = Except.ok Slot.A ∧
      poolA1B4.Send "A" "A" 1 = some ((1, none), poolA1B4) ∧
      (poolA1B4.coin Slot.A).Amount ≠
        (poolA1B4.coin Slot.A).Amount + 1 * (1 - poolA1B4.feeRate) := by
  refine ⟨NewCoinPair_poolA1B4, ?_, Send_poolA1B4_same, ?_⟩
  · simp [CoinPair.getCoin, poolA1B4]
  · norm_num [poolA1B4, CoinPair.coin]

/-- No path of `Send` writes `totalK`. -/
theorem Send_totalK (cp : CoinPair) (src dst : String) (value : ℚ) (r : ℚ × Option String)
    (cp' : CoinPair) (h : cp.Send src dst value = some (r, cp')) : cp'.totalK = cp.totalK := by
  unfold CoinPair.Send at h
  split at h
  · simp only [Option.some.injEq, Prod.mk.injEq] at h
    rw [← h.2]
  · split at h
    · simp only [Option.some.injEq, Prod.mk.injEq] at h
      rw [← h.2]
    · split_ifs at h
      · simp only [Option.some.injEq, Prod.mk.injEq] at h
        rw [← h.2]
      · dsimp only at h
        split at h
        · simp at h
        · split at h
          · simp only [Option.some.injEq, Prod.mk.injEq] at h
            rw [← h.2]
            simp only [totalK_modifyCoin]
          · split at h
            · simp at h
            · rename_i err cp5 hshare
              simp only [Option.some.injEq, Prod.mk.injEq] at h
              rw [← h.2, (shareFee_frame _ _ _ _ _ hshare).2.2.1]
              simp only [totalK_modifyCoin]

/-- C6: on a pool with `CoinA.Amount * CoinB.Amount = totalK`, `Send` leaves `totalK` as it was
whatever it returns, and after a successful `Send` the product of the two amounts is the product
before the call and is `totalK`. -/
theorem Send_preserves_product (cp : CoinPair) (src dst : String) (value : ℚ)
    (r : ℚ × Option String) (cp' : CoinPair)
    (hk : cp.CoinA.Amount * cp.CoinB.Amount = cp.totalK)
    (hsend : cp.Send src dst value = some (r, cp')) :
    cp'.totalK = cp.totalK ∧
      (r.2 = none →
        cp'.CoinA.Amount * cp'.CoinB.Amount = cp.CoinA.Amount * cp.CoinB.Amount ∧
        cp'.CoinA.Amount * cp'.CoinB.Amount = cp'.totalK) := by
  have hK := Send_totalK cp src dst value r cp' hsend
  refine ⟨hK, fun hr => ?_⟩
  obtain ⟨x, e⟩ := r
  simp only at hr
  subst hr
  obtain ⟨f, t, newAmountOfTo, err, -, -, -, -, -, hck, hshare⟩ :=
    Send_ok_inv cp src dst value x cp' hsend
  obtain ⟨hA, hB, hT, -⟩ := shareFee_frame _ _ _ _ _ hshare
  have hprod : cp'.CoinA.Amount * cp'.CoinB.Amount = cp'.totalK := by
    unfold CoinPair.checkk at hck
    split_ifs at hck with hne
    rw [hA, hB, hT, mul_comm]
    exact not_not.mp hne
  exact ⟨by rw [hprod, hK, hk], hprod⟩


/-- C6 on the pool of `NewCoinPair "A-B" 1 4 0 "p0"`, where `Send "A" "A" 1` succeeds. -/
theorem Send_preserves_product_witness :
    poolA1B4.CoinA.Amount * poolA1B4.CoinB.Amount = poolA1B4.totalK ∧
      poolA1B4.Send "A" "A" 1 = some ((1, none), poolA1B4) ∧
      poolA1B4.totalK = poolA1B4.totalK ∧
      (((1 : ℚ), (none : Option String)).2 = none →
        poolA1B4.CoinA.Amount * poolA1B4.CoinB.Amount =
            poolA1B4.CoinA.Amount * poolA1B4.CoinB.Amount ∧
          poolA1B4.CoinA.Amount * poolA1B4.CoinB.Amount = poolA1B4.totalK) :=
  have hk : poolA1B4.CoinA.Amount * poolA1B4.CoinB.Amount = poolA1B4.totalK := by
    norm_num [poolA1B4]
  ⟨hk, Send_poolA1B4_same,
    Send_preserves_product poolA1B4 "A" "A" 1 (1, none) poolA1B4 hk Send_poolA1B4_same⟩

/-! ### Fee distribution -/

/-- Crediting an amount does not change what `getCoin` selects. -/
theorem getCoin_modifyCoin_amount (m : MarketMaker) (s : Slot) (g : ℚ → ℚ) (name : String) :
    (m.modifyCoin s (fun c => { c with Amount := g c.Amount })).getCoin name = m.getCoin name := by
  cases s <;> rfl

/-- Reading the coin of a maker that was just updated. -/
theorem maker_coin_modifyCoin_same (m : MarketMaker) (s : Slot) (f : Coin → Coin) :
    (m.modifyCoin s f).coin s = f (m.coin s) := by
  cases s <;> rfl

/-- Reading the coin of a maker that was not updated. -/
theorem maker_coin_modifyCoin_other (m : MarketMaker) (s : Slot) (f : Coin → Coin) :
    (m.modifyCoin s f).coin s.other = m.coin s.other := by
  cases s <;> rfl

/-- Shifting the accumulator of the first loop shifts its result. -/
theorem sumCoins_shift (coinname : String) (l : List (String × MarketMaker)) (acc d S : ℚ)
    (h : sumCoins coinname l acc = Except.ok S) :
    sumCoins coinname l (acc + d) = Except.ok (S + d) := by
  induction l generalizing acc with
  | nil =>
    simp only [sumCoins, Except.ok.injEq] at h ⊢
    rw [h]
  | cons e rest ih =>
    obtain ⟨k, v⟩ := e
    simp only [sumCoins] at h ⊢
    cases hg : v.getCoin coinname with
    | error err => simp [hg] at h
    | ok s =>
      simp only [hg] at h ⊢
      have h1 := ih _ h
      rw [show acc + d + (v.coin s).Amount = acc + (v.coin s).Amount + d by ring]
      exact h1

/-- The first loop on a non-empty map: the first amount plus the sum of the rest. -/
theorem sumCoins_cons (coinname : String) (k : String) (v : MarketMaker)
    (rest : List (String × MarketMaker)) (S : ℚ)
    (h : sumCoins coinname ((k, v) :: rest) 0 = Except.ok S) :
    ∃ s R, v.getCoin coinname = Except.ok s ∧ sumCoins coinname rest 0 = Except.ok R ∧
      S = (v.coin s).Amount + R := by
  simp only [sumCoins] at h
  cases hg : v.getCoin coinname with
  | error err => simp [hg] at h
  | ok s =>
    simp only [hg] at h
    have h1 := sumCoins_shift coinname rest _ (-(v.coin s).Amount) S h
    refine ⟨s, S + -(v.coin s).Amount, rfl, ?_, by ring⟩
    rw [← h1]
    congr 1
    ring

/-- The second loop, when every maker holds the named coin and the total is not zero, credits
every entry and returns no error. -/
theorem payFees_eq_map (coinname : String) (T fee : ℚ) (hT : T ≠ 0)
    (l : List (String × MarketMaker)) (S : ℚ) (h : sumCoins coinname l 0 = Except.ok S) :
    payFees coinname T fee l = some (none, l.map (creditMaker coinname T fee)) := by
  induction l generalizing S with
  | nil => rfl
  | cons e rest ih =>
    obtain ⟨k, v⟩ := e
    obtain ⟨s, R, hg, hrest, -⟩ := sumCoins_cons coinname k v rest S h
    simp only [payFees, hg, fdiv, hT, ih R hrest, creditMaker, if_false, List.map_cons]
    cases s <;> rfl

/-- The sum of the named coin over the credited entries. -/
theorem sumCoins_credit (coinname : String) (T fee : ℚ)
    (l : List (String × MarketMaker)) (S : ℚ) (h : sumCoins coinname l 0 = Except.ok S) :
    sumCoins coinname (l.map (creditMaker coinname T fee)) 0 = Except.ok (S + S / T * fee) := by
  induction l generalizing S with
  | nil =>
    simp only [sumCoins, Except.ok.injEq] at h
    subst h
    simp [sumCoins]
  | cons e rest ih =>
    obtain ⟨k, v⟩ := e
    obtain ⟨s, R, hg, hrest, hS⟩ := sumCoins_cons coinname k v rest S h
    have h1 := sumCoins_shift coinname _ 0
      ((v.coin s).Amount + (v.coin s).Amount / T * fee) _ (ih R hrest)
    simp only [List.map_cons, creditMaker, hg, sumCoins, getCoin_modifyCoin_amount v s
      (fun a => a + a / T * fee), maker_coin_modifyCoin_same]
    rw [h1, hS]
    congr 1
    ring

/-- When the first loop succeeds every maker holds the named coin. -/
theorem sumCoins_getCoin (coinname : String) (l : List (String × MarketMaker)) (S : ℚ)
    (h : sumCoins coinname l 0 = Except.ok S) (e : String × MarketMaker) (he : e ∈ l) :
    ∃ s, e.2.getCoin coinname = Except.ok s := by
  induction l generalizing S with
  | nil => simp at he
  | cons e0 rest ih =>
    obtain ⟨k, v⟩ := e0
    obtain ⟨s, R, hg, hrest, -⟩ := sumCoins_cons coinname k v rest S h
    rcases List.mem_cons.mp he with rfl | hmem
    · exact ⟨s, hg⟩
    · exact ih R hrest hmem

/-- The makers after `shareFee` when they all hold the named coin and the total is not zero. -/
theorem shareFee_makers (cp : CoinPair) (coinname : String) (fee T : ℚ) (err : Option String)
    (cp' : CoinPair) (h : cp.shareFee coinname fee = some (err, cp'))
    (hT : sumCoins coinname cp.makers 0 = Except.ok T) (hT0 : T ≠ 0) :
    err = none ∧ cp'.makers = cp.makers.map (creditMaker coinname T fee) := by
  unfold CoinPair.shareFee at h
  simp only [hT, payFees_eq_map coinname T fee hT0 cp.makers T hT, Option.some.injEq,
    Prod.mk.injEq] at h
  obtain ⟨h1, h2⟩ := h
  subst h1 h2
  exact ⟨rfl, rfl⟩

/-- The makers after a successful `Send`. -/
theorem Send_ok_makers (cp : CoinPair) (src dst : String) (value x T : ℚ) (cp' : CoinPair)
    (hsend : cp.Send src dst value = some ((x, none), cp'))
    (hT : sumCoins src cp.makers 0 = Except.ok T) (hT0 : T ≠ 0) :
    cp'.makers = cp.makers.map (creditMaker src T (cp.feeRate * value)) := by
  obtain ⟨f, t, newAmountOfTo, err, -, -, -, -, -, -, hshare⟩ :=
    Send_ok_inv cp src dst value x cp' hsend
  have hm := (shareFee_makers _ src (cp.feeRate * value) T err cp' hshare
    (by simpa only [makers_modifyCoin] using hT) hT0).2
  simpa only [makers_modifyCoin] using hm

/-! ### AddLiquid -/

/-- Looking a key up after an update in place. -/
theorem lookupMaker_modifyMaker (key k : String) (f : MarketMaker → MarketMaker)
    (l : List (String × MarketMaker)) :
    lookupMaker k (modifyMaker key f l) =
      if k = key then (lookupMaker k l).map f else lookupMaker k l := by
  induction l with
  | nil => simp [lookupMaker, modifyMaker]
  | cons e rest ih =>
    obtain ⟨k0, m⟩ := e
    by_cases h1 : key = k0
    · subst h1
      by_cases h2 : k = key
      · subst h2
        simp [lookupMaker, modifyMaker]
      · simp [lookupMaker, modifyMaker, h2]
    · by_cases h2 : k = k0
      · subst h2
        have h3 : ¬ k = key := fun h => h1 h.symm
        simp [lookupMaker, modifyMaker, h1, h3]
      · simp only [lookupMaker, modifyMaker, h1, h2, if_false, ih]

/-- Looking a key up after an insertion at the end. -/
theorem lookupMaker_append (key k : String) (m : MarketMaker)
    (l : List (String × MarketMaker)) :
    lookupMaker k (l ++ [(key, m)]) =
      match lookupMaker k l with
      | some m0 => some m0
      | none => if k = key then some m else none := by
  induction l with
  | nil => simp [lookupMaker]
  | cons e rest ih =>
    obtain ⟨k0, m0⟩ := e
    by_cases h2 : k = k0
    · simp [lookupMaker, h2]
    · simp only [List.cons_append, lookupMaker, h2, if_false]
      exact ih

/-- The makers after `addMaker`, seen through lookups. -/
theorem lookupMaker_addMaker (cp : CoinPair) (makerName : String) (valueA valueB : ℚ)
    (k : String) :
    lookupMaker k (cp.addMaker makerName valueA valueB).makers =
      if k = makerName then
        match lookupMaker makerName cp.makers with
        | some m => some { m with CoinA := m.CoinA.Add valueA, CoinB := m.CoinB.Add valueB }
        | none =>
          some { Name := "", CoinA := ⟨cp.CoinA.Name, valueA⟩, CoinB := ⟨cp.CoinB.Name, valueB⟩ }
      else lookupMaker k cp.makers := by
  unfold CoinPair.addMaker
  simp only [lookupMaker_modifyMaker]
  by_cases hk : k = makerName
  · subst hk
    cases hl : lookupMaker k cp.makers with
    | none => simp [lookupMaker_append, hl, Coin.Add]
    | some m => simp [hl]
  · cases hl : lookupMaker makerName cp.makers with
    | none =>
      simp only [hk, if_false, lookupMaker_append]
      cases lookupMaker k cp.makers <;> rfl
    | some m => simp [hk]

/-- What a successful `AddLiquid` went through. -/
theorem AddLiquid_ok_inv (cp : CoinPair) (coinA coinB makerName : String) (valueA valueB : ℚ)
    (cp' : CoinPair) (h : cp.AddLiquid coinA valueA coinB valueB makerName = some (none, cp')) :
    valueB ≠ 0 ∧ cp.CoinB.Amount ≠ 0 ∧ valueA / valueB = cp.CoinA.Amount / cp.CoinB.Amount ∧
      cp' = (({ cp with CoinA := cp.CoinA.Add valueA, CoinB := cp.CoinB.Add valueB } :
        CoinPair).updatek).addMaker makerName valueA valueB := by
  unfold CoinPair.AddLiquid fdiv at h
  by_cases hvB : valueB = 0
  · simp [hvB] at h
  · by_cases hb : cp.CoinB.Amount = 0
    · simp [hvB, hb] at h
    · simp only [hvB, hb, if_false] at h
      split_ifs at h with hne
      · simp at h
      · simp only [Option.some.injEq, Prod.mk.injEq, true_and] at h
        exact ⟨hvB, hb, not_not.mp hne, h.symm⟩

/-- C8: after a successful `AddLiquid`, whatever the two names passed, coin A has grown by
`valueA` and coin B by `valueB` (names kept), `totalK` is the product of the new amounts,
`feeRate` is unchanged, every other maker's record is unchanged, and the record of `makerName`
is `(valueA, valueB)` under the pool's coin names when it was absent, and its previous record
with `valueA` and `valueB` added when it was present. -/
theorem AddLiquid_ok_state (cp : CoinPair) (coinA coinB makerName : String) (valueA valueB : ℚ)
    (cp' : CoinPair) (h : cp.AddLiquid coinA valueA coinB valueB makerName = some (none, cp')) :
    cp'.CoinA = ⟨cp.CoinA.Name, cp.CoinA.Amount + valueA⟩ ∧
      cp'.CoinB = ⟨cp.CoinB.Name, cp.CoinB.Amount + valueB⟩ ∧
      cp'.totalK = cp'.CoinA.Amount * cp'.CoinB.Amount ∧
      cp'.feeRate = cp.feeRate ∧
      (∀ k, k ≠ makerName → lookupMaker k cp'.makers = lookupMaker k cp.makers) ∧
      (lookupMaker makerName cp.makers = none →
        lookupMaker makerName cp'.makers =
          some { Name := "", CoinA := ⟨cp.CoinA.Name, valueA⟩,
                 CoinB := ⟨cp.CoinB.Name, valueB⟩ }) ∧
      (∀ m, lookupMaker makerName cp.makers = some m →
        lookupMaker makerName cp'.makers =
          some { m with CoinA := ⟨m.CoinA.Name, m.CoinA.Amount + valueA⟩,
                        CoinB := ⟨m.CoinB.Name, m.CoinB.Amount + valueB⟩ }) := by
  obtain ⟨-, -, -, hcp⟩ := AddLiquid_ok_inv cp coinA coinB makerName valueA valueB cp' h
  subst hcp
  refine ⟨rfl, rfl, ?_, rfl, ?_, ?_, ?_⟩
  · simp only [CoinPair.addMaker, CoinPair.updatek, Coin.Add]
    ring
  · intro k hk
    rw [lookupMaker_addMaker]
    simp [hk, CoinPair.updatek]
  · intro hnone
    rw [lookupMaker_addMaker]
    simp [CoinPair.updatek, hnone, Coin.Add]
  · intro m hm
    rw [lookupMaker_addMaker]
    simp [CoinPair.updatek, hm, Coin.Add]

/-- The spec's scenario 3: a 500/500 deposit by the new maker p1 on the 1000/1000 pool. -/
theorem AddLiquid_poolAB_500 :
    poolAB.AddLiquid "A" 500 "B" 500 "p1" = some (none, poolAB_added) := by
  simp [CoinPair.AddLiquid, fdiv, poolAB, poolAB_added, CoinPair.updatek, CoinPair.addMaker,
    lookupMaker, modifyMaker, Coin.Add]
  norm_num

/-- C8 at the spec's scenario 3: balances 1500/1500, `totalK` 2250000, p1 recorded with
(500, 500), p0 unchanged. -/
theorem AddLiquid_ok_state_witness :
    poolAB.AddLiquid "A" 500 "B" 500 "p1" = some (none, poolAB_added) ∧
      poolAB_added.CoinA = ⟨"A", 1500⟩ ∧ poolAB_added.CoinB = ⟨"B", 1500⟩ ∧
      poolAB_added.totalK = 2250000 ∧
      lookupMaker "p1" poolAB_added.makers = some ⟨"", ⟨"A", 500⟩, ⟨"B", 500⟩⟩ ∧
      lookupMaker "p0" poolAB_added.makers = lookupMaker "p0" poolAB.makers := by
  have h := AddLiquid_ok_state poolAB "A" "B" "p1" 500 500 poolAB_added AddLiquid_poolAB_500
  obtain ⟨hA, hB, hK, -, hother, hnew, -⟩ := h
  refine ⟨AddLiquid_poolAB_500, ?_, ?_, ?_, ?_, ?_⟩
  · rw [hA]; norm_num [poolAB]
  · rw [hB]; norm_num [poolAB]
  · rw [hK, hA, hB]; norm_num [poolAB]
  · rw [hnew (by simp [lookupMaker, poolAB])]; simp [poolAB]
  · exact hother "p0" (by decide)

/-- The spec's scenario 4: a 500/400 deposit on the 1000/1000 pool is refused. -/
theorem AddLiquid_poolAB_500_400 :
    poolAB.AddLiquid "A" 500 "B" 400 "p1" = some (some "invalid ratio of coin pair", poolAB) := by
  simp [CoinPair.AddLiquid, fdiv, poolAB]
  norm_num

/-- C10 (amended): in exact arithmetic (amounts as rationals), after a successful `AddLiquid` with
`valueB > 0` on a pool whose amount of coin B is positive, `CoinA.Amount / CoinB.Amount` is what
it was before the call (in particular when both amounts and both values are positive). -/
theorem AddLiquid_keeps_price (cp : CoinPair) (coinA coinB makerName : String)
    (valueA valueB : ℚ) (cp' : CoinPair)
    (hb : 0 < cp.CoinB.Amount) (hvB : 0 < valueB)
    (h : cp.AddLiquid coinA valueA coinB valueB makerName = some (none, cp')) :
    cp'.CoinA.Amount / cp'.CoinB.Amount = cp.CoinA.Amount / cp.CoinB.Amount := by
  obtain ⟨-, -, heq, hcp⟩ := AddLiquid_ok_inv cp coinA coinB makerName valueA valueB cp' h
  subst hcp
  simp only [CoinPair.addMaker, CoinPair.updatek, Coin.Add]
  have h1 : valueB ≠ 0 := ne_of_gt hvB
  have h2 : cp.CoinB.Amount ≠ 0 := ne_of_gt hb
  have h3 : cp.CoinB.Amount + valueB ≠ 0 := ne_of_gt (add_pos hb hvB)
  rw [div_eq_div_iff h1 h2] at heq
  rw [div_eq_div_iff h3 h2]
  linarith

/-- C10 (amended) at the spec's scenario 3: 1500/1500 after the deposit is 1000/1000 before
it. -/
theorem AddLiquid_keeps_price_witness :
    0 < poolAB.CoinB.Amount ∧ (0 : ℚ) < 500 ∧
      poolAB.AddLiquid "A" 500 "B" 500 "p1" = some (none, poolAB_added) ∧
      poolAB_added.CoinA.Amount / poolAB_added.CoinB.Amount =
        poolAB.CoinA.Amount / poolAB.CoinB.Amount :=
  have h1 : 0 < poolAB.CoinB.Amount := by norm_num [poolAB]
  have h2 : (0 : ℚ) < 500 := by norm_num
  ⟨h1, h2, AddLiquid_poolAB_500,
    AddLiquid_keeps_price poolAB "A" "B" "p1" 500 500 poolAB_added h1 h2 AddLiquid_poolAB_500⟩

/-! ### Send in exact arithmetic: when the rollback restores the pool -/

/-- C17: `Del value` subtracts `value` from `Amount` when `value ≤ Amount` and otherwise returns
the coin as it was (the method has no result to signal anything with); the name is never
touched; and a coin with `Amount ≥ 0` still has `Amount ≥ 0` after `Del`, whatever the sign of
`value`. -/
theorem Del_contract (c : Coin) (value : ℚ) :
    (value ≤ c.Amount → (c.Del value).Amount = c.Amount - value) ∧
      (¬ value ≤ c.Amount → c.Del value = c) ∧
      (c.Del value).Name = c.Name ∧
      (0 ≤ c.Amount → 0 ≤ (c.Del value).Amount) := by
  unfold Coin.Del
  refine ⟨fun h => by simp [h], fun h => by simp [h], ?_, fun h0 => ?_⟩
  · split_ifs <;> rfl
  · split_ifs with h
    · simp only
      linarith
    · exact h0

/-- C17 on a coin holding 5: taking 3 leaves 2, taking 7 leaves 5, taking -1 leaves 6. -/
theorem Del_contract_witness :
    ((⟨"A", 5⟩ : Coin).Del 3).Amount = 2 ∧ (⟨"A", 5⟩ : Coin).Del 7 = ⟨"A", 5⟩ ∧
      ((⟨"A", 5⟩ : Coin).Del (-1)).Amount = 6 ∧ 0 ≤ ((⟨"A", 5⟩ : Coin).Del 7).Amount := by
  have h3 := Del_contract ⟨"A", 5⟩ 3
  have h7 := Del_contract ⟨"A", 5⟩ 7
  have h1 := Del_contract ⟨"A", 5⟩ (-1)
  refine ⟨?_, h7.2.1 (by norm_num), ?_, h7.2.2.2 (by norm_num)⟩
  · rw [h3.1 (by norm_num)]; norm_num
  · rw [h1.1 (by norm_num)]; norm_num

/-! ### AddLiquid and the names it is given -/

/-- C20: the two coin names given to `AddLiquid` have no effect: with the same amounts and maker
name, any two pairs of names give the same outcome (error or success, or the same undefined
division) and the same pool after the call; and whenever the call succeeds, whatever the names,
`valueA` has been added to coin A and `valueB` to coin B. -/
theorem AddLiquid_ignores_names (cp : CoinPair) (n1 n2 m1 m2 makerName : String)
    (valueA valueB : ℚ) :
    cp.AddLiquid n1 valueA n2 valueB makerName = cp.AddLiquid m1 valueA m2 valueB makerName ∧
      ∀ cp', cp.AddLiquid n1 valueA n2 valueB makerName = some (none, cp') →
        cp'.CoinA = ⟨cp.CoinA.Name, cp.CoinA.Amount + valueA⟩ ∧
        cp'.CoinB = ⟨cp.CoinB.Name, cp.CoinB.Amount + valueB⟩ := by
  refine ⟨rfl, fun cp' h => ?_⟩
  obtain ⟨-, -, -, hcp⟩ := AddLiquid_ok_inv cp n1 n2 makerName valueA valueB cp' h
  subst hcp
  exact ⟨rfl, rfl⟩

/-- A deposit of 500 and 1000 on the 1000/2000 pool with the two names swapped. -/
theorem AddLiquid_poolA1000B2000_swapped :
    poolA1000B2000.AddLiquid "B" 500 "A" 1000 "p1" = some (none, poolA1000B2000_added) := by
  simp [CoinPair.AddLiquid, fdiv, poolA1000B2000, poolA1000B2000_added, CoinPair.updatek,
    CoinPair.addMaker, lookupMaker, modifyMaker, Coin.Add]
  norm_num

/-- C20 on the 1000/2000 pool: with the names swapped ("B" with 500, "A" with 1000) or unknown
the call is the call with the names in order, and the 500 go to coin A, the 1000 to coin B. -/
theorem AddLiquid_ignores_names_witness :
    poolA1000B2000.AddLiquid "B" 500 "A" 1000 "p1" =
        poolA1000B2000.AddLiquid "A" 500 "B" 1000 "p1" ∧
      poolA1000B2000.AddLiquid "B" 500 "A" 1000 "p1" =
        poolA1000B2000.AddLiquid "X" 500 "Y" 1000 "p1" ∧
      poolA1000B2000_added.CoinA = ⟨"A", 1000 + 500⟩ ∧
      poolA1000B2000_added.CoinB = ⟨"B", 2000 + 1000⟩ :=
  ⟨(AddLiquid_ignores_names poolA1000B2000 "B" "A" "A" "B" "p1" 500 1000).1,
    (AddLiquid_ignores_names poolA1000B2000 "B" "A" "X" "Y" "p1" 500 1000).1,
    (AddLiquid_ignores_names poolA1000B2000 "B" "A" "A" "B" "p1" 500 1000).2
      poolA1000B2000_added AddLiquid_poolA1000B2000_swapped⟩

/-! ### GetAddNum -/

/-- C12: `GetAddNum name v` returns the error "failed to get coin: illegal coin name" (with
result 0) exactly when `name` is the name of neither coin; when `name` resolves to a coin whose
amount is not zero it returns `other.Amount / this.Amount * v` and no error, `other` being the
other coin of the pool; and whatever it returns, the pool after the call is the pool before it,
so a second call with the same arguments returns the same. -/
theorem GetAddNum_contract (cp : CoinPair) (name : String) (v : ℚ) :
    ((name ≠ cp.CoinA.Name ∧ name ≠ cp.CoinB.Name) ↔
        ∃ x e cp', cp.GetAddNum name v = some ((x, some e), cp')) ∧
      (name ≠ cp.CoinA.Name ∧ name ≠ cp.CoinB.Name →
        cp.GetAddNum name v = some ((0, some "failed to get coin: illegal coin name"), cp)) ∧
      (∀ s, cp.getCoin name = Except.ok s → (cp.coin s).Amount ≠ 0 →
        cp.GetAddNum name v =
          some (((cp.coin s.other).Amount / (cp.coin s).Amount * v, none), cp)) ∧
      (∀ r cp', cp.GetAddNum name v = some (r, cp') →
        cp' = cp ∧ cp'.GetAddNum name v = some (r, cp')) := by
  have herr : name ≠ cp.CoinA.Name ∧ name ≠ cp.CoinB.Name →
      cp.GetAddNum name v = some ((0, some "failed to get coin: illegal coin name"), cp) := by
    rintro ⟨h1, h2⟩
    simp [CoinPair.GetAddNum, CoinPair.getCoin, h1, h2]
  have hsame : ∀ r cp', cp.GetAddNum name v = some (r, cp') → cp' = cp := by
    intro r cp' h
    unfold CoinPair.GetAddNum at h
    split at h
    · simp only [Option.some.injEq, Prod.mk.injEq] at h
      exact h.2.symm
    · dsimp only at h
      split at h
      · simp at h
      · simp only [Option.some.injEq, Prod.mk.injEq] at h
        exact h.2.symm
  refine ⟨⟨fun h => ⟨0, _, cp, herr h⟩, ?_⟩, herr, ?_, ?_⟩
  · rintro ⟨x, e, cp', h⟩
    unfold CoinPair.GetAddNum at h
    split at h
    · rename_i err hg
      unfold CoinPair.getCoin at hg
      split_ifs at hg with h1 h2
      exact ⟨h1, h2⟩
    · dsimp only at h
      split at h <;> simp at h
  · intro s hs h0
    unfold CoinPair.GetAddNum
    simp only [hs]
    unfold CoinPair.getCoin at hs
    split_ifs at hs with h1 h2
    · injection hs with hs
      subst hs
      simp only [CoinPair.coin] at h0
      simp [CoinPair.coin, Slot.other, fdiv, h0]
    · injection hs with hs
      subst hs
      simp only [CoinPair.coin] at h0
      have h3 : ¬ cp.CoinB.Name = cp.CoinA.Name := fun h => h1 (h2.trans h)
      simp [CoinPair.coin, Slot.other, fdiv, h0, h3]
  · intro r cp' h
    have hcp := hsame r cp' h
    subst hcp
    exact ⟨rfl, h⟩

/-- C12 on the 1000/2000 pool: 500 A ask for `2000 / 1000 * 500 = 1000` B, the unknown name
"C" is refused, and the pool is not changed. -/
theorem GetAddNum_contract_witness :
    poolA1000B2000.GetAddNum "A" 500 =
        some (((poolA1000B2000.coin Slot.B).Amount / (poolA1000B2000.coin Slot.A).Amount * 500,
          none), poolA1000B2000) ∧
      (poolA1000B2000.coin Slot.B).Amount / (poolA1000B2000.coin Slot.A).Amount * 500 = 1000 ∧
      poolA1000B2000.GetAddNum "C" 500 =
        some ((0, some "failed to get coin: illegal coin name"), poolA1000B2000) :=
  ⟨(GetAddNum_contract poolA1000B2000 "A" 500).2.2.1 Slot.A
      (by simp [CoinPair.getCoin, poolA1000B2000])
      (by norm_num [CoinPair.coin, poolA1000B2000]),
    by norm_num [CoinPair.coin, poolA1000B2000],
    (GetAddNum_contract poolA1000B2000 "C" 500).2.1 (by simp [poolA1000B2000])⟩

/-- The number of pieces is the number of separators plus one. -/
theorem splitOnChar_length (sep : Char) (l : List Char) :
    (splitOnChar sep l).length = l.count sep + 1 := by
  induction l with
  | nil => rfl
  | cons c cs ih =>
    by_cases h : c = sep
    · subst h
      simp [splitOnChar, ih]
    · have h2 : ¬ (c == sep) = true := by simpa using h
      simp only [splitOnChar, h, if_false]
      cases hs : splitOnChar sep cs with
      | nil => simp [hs] at ih
      | cons piece pieces =>
        rw [hs] at ih
        simp only [List.length_cons] at ih ⊢
        rw [List.count_cons, ih]
        simp [h2]

/-- A list without the separator is a single piece. -/
theorem splitOnChar_no_sep (sep : Char) (l : List Char) (h : sep ∉ l) :
    splitOnChar sep l = [l] := by
  induction l with
  | nil => rfl
  | cons c cs ih =>
    have hc : c ≠ sep := fun e => h (by simp [e])
    have hcs : sep ∉ cs := fun e => h (List.mem_cons_of_mem _ e)
    simp [splitOnChar, hc, ih hcs]

/-- Two pieces around one separator. -/
theorem splitOnChar_two (sep : Char) (l1 l2 : List Char) (h1 : sep ∉ l1) (h2 : sep ∉ l2) :
    splitOnChar sep (l1 ++ sep :: l2) = [l1, l2] := by
  induction l1 with
  | nil => simp [splitOnChar, splitOnChar_no_sep sep l2 h2]
  | cons c cs ih =>
    have hc : c ≠ sep := fun e => h1 (by simp [e])
    have hcs : sep ∉ cs := fun e => h1 (List.mem_cons_of_mem _ e)
    simp [splitOnChar, hc, ih hcs]

/-- What `NewCoinPair` returns, by the number of pieces of the name. -/
theorem NewCoinPair_cases (name : String) (A B fee : ℚ) (makerName : String) :
    ((splitOnChar '-' name.data).length = 2 ∧
        ∃ cp, NewCoinPair name A B fee makerName = Except.ok cp) ∨
      ((splitOnChar '-' name.data).length ≠ 2 ∧
        NewCoinPair name A B fee makerName =
          Except.error "faild to create new coin pair: illegal coin name") := by
  unfold NewCoinPair
  cases h : splitOnChar '-' name.data with
  | nil => right; simp
  | cons p1 t1 =>
    cases t1 with
    | nil => right; simp
    | cons p2 t2 =>
      cases t2 with
      | nil => left; simp
      | cons p3 t3 => right; simp

/-- C13 (as stated, refuted): the name "A-" splits into "A" and the empty string, which are not
two non-empty parts, and `NewCoinPair` succeeds, with the empty string as the name of coin B. -/
theorem NewCoinPair_empty_part :
    NewCoinPair "A-" 1000 1000 (3/1000) "p0" =
      Except.ok
        { CoinA := ⟨"A", 1000⟩, CoinB := ⟨"", 1000⟩, totalK := 1000000, feeRate := 3/1000,
          fees := 0, makers := [("p0", ⟨"", ⟨"A", 1000⟩, ⟨"", 1000⟩⟩)] } := by
  simp [NewCoinPair, splitOnChar, CoinPair.addMaker, lookupMaker, modifyMaker, Coin.Add]
  norm_num

/-- C13 (amended): `NewCoinPair` returns an error, and then the error "faild to create new coin
pair: illegal coin name", exactly when the name does not hold exactly one "-", that is when it
does not split on "-" into exactly two parts, empty or not; otherwise it returns a pool. -/
theorem NewCoinPair_error_iff (name : String) (A B fee : ℚ) (makerName : String) :
    ((∃ e, NewCoinPair name A B fee makerName = Except.error e) ↔ name.data.count '-' ≠ 1) ∧
      (name.data.count '-' ≠ 1 →
        NewCoinPair name A B fee makerName =
          Except.error "faild to create new coin pair: illegal coin name") ∧
      (name.data.count '-' = 1 → ∃ cp, NewCoinPair name A B fee makerName = Except.ok cp) := by
  have hlen := splitOnChar_length '-' name.data
  rcases NewCoinPair_cases name A B fee makerName with ⟨h2, cp, hok⟩ | ⟨h2, herr⟩
  · have hc : name.data.count '-' = 1 := by omega
    refine ⟨⟨?_, fun h => absurd hc h⟩, fun h => absurd hc h, fun _ => ⟨cp, hok⟩⟩
    rintro ⟨e, he⟩
    rw [hok] at he
    cases he
  · have hc : name.data.count '-' ≠ 1 := by omega
    exact ⟨⟨fun _ => hc, fun _ => ⟨_, herr⟩⟩, fun _ => herr, fun h => absurd h hc⟩

/-- C13 (amended) on names with no, one and two "-". -/
theorem NewCoinPair_error_iff_witness :
    NewCoinPair "AB" 1 1 0 "p0" =
        Except.error "faild to create new coin pair: illegal coin name" ∧
      NewCoinPair "A-B-C" 1 1 0 "p0" =
        Except.error "faild to create new coin pair: illegal coin name" ∧
      ∃ cp, NewCoinPair "A-B" 1 1 0 "p0" = Except.ok cp :=
  ⟨(NewCoinPair_error_iff "AB" 1 1 0 "p0").2.1 (by decide),
    (NewCoinPair_error_iff "A-B-C" 1 1 0 "p0").2.1 (by decide),
    (NewCoinPair_error_iff "A-B" 1 1 0 "p0").2.2 (by decide)⟩

/-- C14: for `X` and `Y` without "-", `NewCoinPair` on the name `X-Y` returns the pool with coin
A `(X, A)`, coin B `(Y, B)`, `totalK = A * B`, `feeRate = fee`, and a makers map with the single
key `makerName`, whose record holds `A` of `X` and `B` of `Y`. -/
theorem NewCoinPair_ok (X Y : String) (A B fee : ℚ) (makerName : String)
    (hX : '-' ∉ X.data) (hY : '-' ∉ Y.data) :
    NewCoinPair (X ++ "-" ++ Y) A B fee makerName =
      Except.ok
        { CoinA := ⟨X, A⟩, CoinB := ⟨Y, B⟩, totalK := A * B, feeRate := fee, fees := 0,
          makers := [(makerName, ⟨"", ⟨X, A⟩, ⟨Y, B⟩⟩)] } := by
  have hdata : (X ++ "-" ++ Y).data = X.data ++ '-' :: Y.data := by
    simp [String.data_append]
  unfold NewCoinPair
  rw [hdata, splitOnChar_two '-' X.data Y.data hX hY]
  simp [CoinPair.addMaker, lookupMaker, modifyMaker, Coin.Add]

/-- C14 on the name "eth-mtv" of the source's comment. -/
theorem NewCoinPair_ok_witness :
    '-' ∉ ("eth" : String).data ∧ '-' ∉ ("mtv" : String).data ∧
      NewCoinPair ("eth" ++ "-" ++ "mtv") 10 20 (3/1000) "p0" =
        Except.ok
          { CoinA := ⟨"eth", 10⟩, CoinB := ⟨"mtv", 20⟩, totalK := 10 * 20, feeRate := 3/1000,
            fees := 0, makers := [("p0", ⟨"", ⟨"eth", 10⟩, ⟨"mtv", 20⟩⟩)] } :=
  have h1 : '-' ∉ ("eth" : String).data := by decide
  have h2 : '-' ∉ ("mtv" : String).data := by decide
  ⟨h1, h2, NewCoinPair_ok "eth" "mtv" 10 20 (3/1000) "p0" h1 h2⟩

/-! ### shareFee -/

/-- The result of `shareFee` when every maker holds the named coin and the total is not zero. -/
theorem shareFee_eq (cp : CoinPair) (coinname : String) (fee T : ℚ)
    (hT : sumCoins coinname cp.makers 0 = Except.ok T) (hT0 : T ≠ 0) :
    cp.shareFee coinname fee =
      some (none, { cp with makers := cp.makers.map (creditMaker coinname T fee) }) := by
  unfold CoinPair.shareFee
  simp only [hT, payFees_eq_map coinname T fee hT0 cp.makers T hT]

/-- The run of `shareFee "A" 10` on the pool with the makers p0 (600 A) and p1 (400 A). -/
theorem shareFee_poolTwoMakers :
    poolTwoMakers.shareFee "A" 10 = some (none, poolTwoMakers_paid) := by
  simp [CoinPair.shareFee, sumCoins, payFees, poolTwoMakers, poolTwoMakers_paid,
    MarketMaker.getCoin, MarketMaker.coin, MarketMaker.modifyCoin, fdiv]
  norm_num

/-- The total of coin A over the two makers. -/
theorem sumCoins_poolTwoMakers : sumCoins "A" poolTwoMakers.makers 0 = Except.ok 1000 := by
  simp [sumCoins, poolTwoMakers, MarketMaker.getCoin, MarketMaker.coin]
  norm_num

/-- C16: when the makers' amounts of the coin named `coinname` sum to a total `T` that is not
zero, `shareFee coinname fee` returns no error and the makers' amounts of that coin sum to
`T + fee` after the call: the credited shares add up to `fee` exactly. -/
theorem shareFee_conserves_fee (cp : CoinPair) (coinname : String) (fee T : ℚ)
    (hT : sumCoins coinname cp.makers 0 = Except.ok T) (hT0 : T ≠ 0) :
    ∃ cp', cp.shareFee coinname fee = some (none, cp') ∧
      sumCoins coinname cp'.makers 0 = Except.ok (T + fee) := by
  refine ⟨_, shareFee_eq cp coinname fee T hT hT0, ?_⟩
  simp only
  rw [sumCoins_credit coinname T fee cp.makers T hT, div_self hT0, one_mul]

/-- C16 on the pool with the makers p0 (600 A) and p1 (400 A) and the fee 10: the total of A
goes from 1000 to 1010. -/
theorem shareFee_conserves_fee_witness :
    sumCoins "A" poolTwoMakers.makers 0 = Except.ok 1000 ∧ (1000 : ℚ) ≠ 0 ∧
      ∃ cp', poolTwoMakers.shareFee "A" 10 = some (none, cp') ∧
        sumCoins "A" cp'.makers 0 = Except.ok (1000 + 10) :=
  ⟨sumCoins_poolTwoMakers, by norm_num,
    shareFee_conserves_fee poolTwoMakers "A" 10 1000 sumCoins_poolTwoMakers (by norm_num)⟩

/-- The first loop succeeds when every maker holds the named coin. -/
theorem sumCoins_ok_of_getCoin (coinname : String) (l : List (String × MarketMaker)) (acc : ℚ)
    (h : ∀ e ∈ l, ∃ s, e.2.getCoin coinname = Except.ok s) :
    ∃ T, sumCoins coinname l acc = Except.ok T := by
  induction l generalizing acc with
  | nil => exact ⟨acc, rfl⟩
  | cons e0 rest ih =>
    obtain ⟨k, v⟩ := e0
    obtain ⟨s, hs⟩ := h (k, v) (List.mem_cons_self _ _)
    simp only [sumCoins, hs]
    exact ih _ (fun e he => h e (List.mem_cons_of_mem _ he))

/-- On a pool whose makers' coins carry the names of the pool's coins, the total of either coin
of the pool is defined. -/
theorem sumCoins_defined (cp : CoinPair) (coinname : String)
    (hwf : ∀ e ∈ cp.makers,
      e.2.CoinA.Name = cp.CoinA.Name ∧ e.2.CoinB.Name = cp.CoinB.Name)
    (hname : coinname = cp.CoinA.Name ∨ coinname = cp.CoinB.Name) :
    ∃ T, sumCoins coinname cp.makers 0 = Except.ok T := by
  apply sumCoins_ok_of_getCoin
  intro e he
  obtain ⟨h1, h2⟩ := hwf e he
  unfold MarketMaker.getCoin
  rcases hname with h | h
  · exact ⟨Slot.A, by simp [h, h1]⟩
  · by_cases ha : coinname = e.2.CoinA.Name
    · exact ⟨Slot.A, by simp [ha]⟩
    · exact ⟨Slot.B, by rw [if_neg ha, if_pos (h.trans h2.symm)]⟩

/-- The only error of `MarketMaker.getCoin` is the illegal-name error. -/
theorem maker_getCoin_error (m : MarketMaker) (name e : String)
    (h : m.getCoin name = Except.error e) : e = "failed to get coin: illegal coin name" := by
  unfold MarketMaker.getCoin at h
  split_ifs at h
  injection h with h
  exact h.symm

/-- The only error of the first loop of `shareFee` is the illegal-name error. -/
theorem sumCoins_error (coinname : String) (l : List (String × MarketMaker)) (acc : ℚ)
    (e : String) (h : sumCoins coinname l acc = Except.error e) :
    e = "failed to get coin: illegal coin name" := by
  induction l generalizing acc with
  | nil => simp [sumCoins] at h
  | cons e0 rest ih =>
    obtain ⟨k, v⟩ := e0
    simp only [sumCoins] at h
    cases hg : v.getCoin coinname with
    | error err =>
      simp only [hg, Except.error.injEq] at h
      subst h
      exact maker_getCoin_error v coinname err hg
    | ok s =>
      simp only [hg] at h
      exact ih _ h

/-- When the first loop succeeded the second loop returns no error. -/
theorem payFees_no_error (coinname : String) (T fee : ℚ) (l : List (String × MarketMaker))
    (S : ℚ) (h : sumCoins coinname l 0 = Except.ok S) (e : String)
    (l' : List (String × MarketMaker)) : payFees coinname T fee l ≠ some (some e, l') := by
  induction l generalizing S l' with
  | nil => simp [payFees]
  | cons e0 rest ih =>
    obtain ⟨k, v⟩ := e0
    obtain ⟨s, R, hg, hrest, -⟩ := sumCoins_cons coinname k v rest S h
    simp only [payFees, hg]
    cases hq : fdiv (v.coin s).Amount T with
    | none => simp
    | some q =>
      simp only
      cases hp : payFees coinname T fee rest with
      | none => simp
      | some r =>
        obtain ⟨err, rest1⟩ := r
        cases err with
        | none => simp
        | some e1 =>
          intro heq
          simp only [Option.some.injEq, Prod.mk.injEq] at heq
          obtain ⟨he, -⟩ := heq
          subst he
          exact ih R hrest rest1 hp

/-! ### Send in exact arithmetic: every ordinary swap fails -/

/-- The float64 constructor on the name "A-B" with the maker p0. -/
theorem NewCoinPair64_poolP0 (A B fee : F64) :
    B64.NewCoinPair "A-B" A B fee "p0" = Except.ok (B64.poolP0 A B fee) := by
  simp [B64.NewCoinPair, splitOnChar, B64.CoinPair.addMaker, B64.lookupMaker, B64.modifyMaker,
    B64.Coin.Add, B64.poolP0]

/-- Reading the coin that was just updated (float64 pool). -/
theorem coin64_modifyCoin_same (cp : B64.CoinPair) (s : Slot) (f : B64.Coin → B64.Coin) :
    (cp.modifyCoin s f).coin s = f (cp.coin s) := by
  cases s <;> rfl

/-- Reading the coin that was not updated (float64 pool). -/
theorem coin64_modifyCoin_other (cp : B64.CoinPair) (s t : Slot) (f : B64.Coin → B64.Coin)
    (h : s ≠ t) : (cp.modifyCoin s f).coin t = cp.coin t := by
  cases s <;> cases t <;> first | rfl | exact absurd rfl h

/-- Only the makers are touched by the float64 `shareFee`. -/
theorem shareFee64_frame (cp : B64.CoinPair) (coinname : String) (fee : F64) :
    (cp.shareFee coinname fee).2.CoinA = cp.CoinA ∧
      (cp.shareFee coinname fee).2.CoinB = cp.CoinB ∧
      (cp.shareFee coinname fee).2.totalK = cp.totalK ∧
      (cp.shareFee coinname fee).2.feeRate = cp.feeRate := by
  unfold B64.CoinPair.shareFee
  split <;> exact ⟨rfl, rfl, rfl, rfl⟩

/-- C5 (amended): in the float64 program, when `src` and `dst` resolve to the two different
coins of the pool and `Send` succeeds, the amount of the from-coin after the call is its amount
before the call plus the net input `value - feeRate * value`, each operation rounded as the
program performs it. -/
theorem Send64_from_balance (cp : B64.CoinPair) (src dst : String) (value x : F64)
    (cp' : B64.CoinPair) (fromCoin toCoin : Slot)
    (hfrom : cp.getCoin src = Except.ok fromCoin) (hto : cp.getCoin dst = Except.ok toCoin)
    (hne : fromCoin ≠ toCoin)
    (hsend : cp.Send src dst value = ((x, none), cp')) :
    (cp'.coin fromCoin).Amount =
      F64.add (cp.coin fromCoin).Amount (F64.sub value (F64.mul cp.feeRate value)) := by
  unfold B64.CoinPair.Send at hsend
  simp only [hfrom, hto] at hsend
  split_ifs at hsend with hlt
  · simp at hsend
  · split at hsend
    · simp at hsend
    · simp only [Prod.mk.injEq, and_true, true_and] at hsend
      obtain ⟨-, hcp⟩ := hsend
      rw [← hcp]
      have hf := shareFee64_frame
        ((cp.modifyCoin fromCoin (fun c => c.Add (F64.sub value (F64.mul cp.feeRate value)))).modifyCoin
          toCoin (fun c => c.Del (F64.sub (F64.div cp.totalK
            (F64.add (cp.coin fromCoin).Amount (F64.sub value (F64.mul cp.feeRate value))))
            (cp.coin toCoin).Amount))) src (F64.mul cp.feeRate value)
      have hcoin : ∀ (a b : B64.CoinPair), a.CoinA = b.CoinA → a.CoinB = b.CoinB →
          a.coin fromCoin = b.coin fromCoin := by
        intro a b h1 h2
        cases fromCoin
        · exact h1
        · exact h2
      rw [hcoin _ _ hf.1 hf.2.1, coin64_modifyCoin_other _ _ _ _ (Ne.symm hne),
        coin64_modifyCoin_same]
      rfl

/-- The run of `Send "A" "B" 10.3` on the float64 pool 100/0 with fee rate 0.3 succeeds. -/
theorem Send64_pool100_0 :
    B64.pool100_0.Send "A" "B" (F64.lit (103/10)) =
      ((F64.fin 0, none), (B64.pool100_0.Send "A" "B" (F64.lit (103/10))).2) :=
  Prod.ext (by decide!) rfl

/-- C5 (amended) on the float64 pool 100/0 with fee rate 0.3 and `Send "A" "B" 10.3`: the
amount of A after the call is `100 + (10.3 - 0.3 * 10.3)` as the program rounds it,
107.21000000000001, which is not the float64 value 107.21 of `100 + 10.3 * (1 - 0.3)`. -/
theorem Send64_from_balance_witness :
    B64.pool100_0.getCoin "A" = Except.ok Slot.A ∧ B64.pool100_0.getCoin "B" = Except.ok Slot.B ∧
      ((B64.pool100_0.Send "A" "B" (F64.lit (103/10))).2.coin Slot.A).Amount =
        F64.add (B64.pool100_0.coin Slot.A).Amount
          (F64.sub (F64.lit (103/10)) (F64.mul B64.pool100_0.feeRate (F64.lit (103/10)))) ∧
      ((B64.pool100_0.Send "A" "B" (F64.lit (103/10))).2.coin Slot.A).Amount =
        F64.fin (3772116531643679 / 35184372088832) ∧
      F64.add (F64.lit 100)
          (F64.mul (F64.lit (103/10)) (F64.sub (F64.lit 1) (F64.lit (3/10)))) =
        F64.fin (7544233063287357 / 70368744177664) :=
  ⟨by simp [B64.CoinPair.getCoin, B64.pool100_0, B64.poolP0],
    by simp [B64.CoinPair.getCoin, B64.pool100_0, B64.poolP0],
    Send64_from_balance B64.pool100_0 "A" "B" (F64.lit (103/10)) (F64.fin 0) _ Slot.A Slot.B
      (by simp [B64.CoinPair.getCoin, B64.pool100_0, B64.poolP0])
      (by simp [B64.CoinPair.getCoin, B64.pool100_0, B64.poolP0]) (by decide)
      Send64_pool100_0,
    by decide!, by decide!⟩

/-- C7 (the code departs from it): in the float64 program, on the pool of
`NewCoinPair "A-B" 1000 1000 0.003 "p0"`, `Send "A" "B" 100` returns `0` and the error
"invalid k", the pool is unchanged, and the A stake of p0 is still 1000: no fee of 0.3 is paid. -/
theorem Send64_swap100_no_fee :
    B64.NewCoinPair "A-B" (F64.lit 1000) (F64.lit 1000) (F64.lit (3/1000)) "p0" =
        Except.ok B64.pool1000 ∧
      B64.pool1000.Send "A" "B" (F64.lit 100) =
        ((F64.fin 0, some "invalid k"), B64.pool1000) ∧
      B64.lookupMaker "p0" (B64.pool1000.Send "A" "B" (F64.lit 100)).2.makers =
        some ⟨"", ⟨"A", F64.fin 1000⟩, ⟨"B", F64.fin 1000⟩⟩ :=
  ⟨NewCoinPair64_poolP0 _ _ _, by decide!, by decide!⟩

/-- C9: in the float64 program `AddLiquid` returns an error exactly when the Go comparison
`valueA/valueB != CoinA.Amount/CoinB.Amount` of the two rounded quotients is true (also when a
divisor is zero and a quotient is an infinity or a NaN); the error is "invalid ratio of coin
pair", and then the pool after the call is the pool before it: balances, `totalK` and the
makers, with no record created. -/
theorem AddLiquid64_error_iff (cp : B64.CoinPair) (coinA coinB makerName : String)
    (valueA valueB : F64) :
    ((cp.AddLiquid coinA valueA coinB valueB makerName).1 ≠ none ↔
        F64.ne (F64.div valueA valueB) (F64.div cp.CoinA.Amount cp.CoinB.Amount) = true) ∧
      ((cp.AddLiquid coinA valueA coinB valueB makerName).1 ≠ none →
        (cp.AddLiquid coinA valueA coinB valueB makerName).1 =
            some "invalid ratio of coin pair" ∧
          (cp.AddLiquid coinA valueA coinB valueB makerName).2 = cp) := by
  unfold B64.CoinPair.AddLiquid
  by_cases h : F64.ne (F64.div valueA valueB) (F64.div cp.CoinA.Amount cp.CoinB.Amount) = true
  · simp [h]
  · simp [h]

/-- C9 at the spec's scenario 4: the 500/400 deposit on the float64 1000/1000 pool returns the
error and leaves the pool as it was. -/
theorem AddLiquid64_error_iff_witness :
    (B64.pool1000.AddLiquid "A" (F64.lit 500) "B" (F64.lit 400) "p1").1 =
        some "invalid ratio of coin pair" ∧
      (B64.pool1000.AddLiquid "A" (F64.lit 500) "B" (F64.lit 400) "p1").2 = B64.pool1000 :=
  (AddLiquid64_error_iff B64.pool1000 "A" "B" "p1" (F64.lit 500) (F64.lit 400)).2
    (((AddLiquid64_error_iff B64.pool1000 "A" "B" "p1" (F64.lit 500) (F64.lit 400)).1).mpr
      (by decide!))

/-- The ratio check of the float64 program with a zero divisor or a rounded quotient: a 500/0
deposit on the 1000/1000 pool is refused (`+Inf != 1`), a 500/0 deposit on the 1000/0 pool is
accepted (`+Inf != +Inf` is false), and the deposit (1, 0.3333333333333333) on the 3/1 pool is
accepted (the quotient rounds to 3). -/
theorem AddLiquid64_zero_divisors :
    B64.pool1000.AddLiquid "A" (F64.lit 500) "B" (F64.lit 0) "p1" =
        (some "invalid ratio of coin pair", B64.pool1000) ∧
      ((B64.poolP0 (F64.lit 1000) (F64.lit 0) (F64.lit (3/1000))).AddLiquid
        "A" (F64.lit 500) "B" (F64.lit 0) "p1").1 = none ∧
      (B64.pool3_1.AddLiquid "A" (F64.lit 1) "B"
        (F64.lit (3333333333333333/10000000000000000)) "p1").1 = none := by
  refine ⟨by decide!, by decide!, by decide!⟩

/-- C10 (as stated, refuted): in the float64 program, on the pool of
`NewCoinPair "A-B" 0.7 0.9 0.003 "p0"`, `AddLiquid` with the positive amounts 1.4 and 1.8
succeeds, and `CoinA.Amount / CoinB.Amount` is 0.7777777777777777 before the call and
0.7777777777777776 after it. -/
theorem AddLiquid64_price_moves :
    B64.NewCoinPair "A-B" (F64.lit (7/10)) (F64.lit (9/10)) (F64.lit (3/1000)) "p0" =
        Except.ok B64.pool07_09 ∧
      (B64.pool07_09.AddLiquid "A" (F64.lit (14/10)) "B" (F64.lit (18/10)) "p1").1 = none ∧
      F64.div B64.pool07_09.CoinA.Amount B64.pool07_09.CoinB.Amount =
        F64.fin (7005599420354104 / 9007199254740992) ∧
      F64.div
          (B64.pool07_09.AddLiquid "A" (F64.lit (14/10)) "B" (F64.lit (18/10)) "p1").2.CoinA.Amount
          (B64.pool07_09.AddLiquid "A" (F64.lit (14/10)) "B" (F64.lit (18/10)) "p1").2.CoinB.Amount =
        F64.fin (7005599420354103 / 9007199254740992) :=
  ⟨NewCoinPair64_poolP0 _ _ _, by decide!, by decide!, by decide!⟩

/-- A Go result whose value part is `v` is the successful result `v`. -/
theorem except_ok_of_toOption {ε α : Type} (x : Except ε α) (v : α)
    (h : x.toOption = some v) : x = Except.ok v := by
  cases x with
  | error e => simp [Except.toOption] at h
  | ok a =>
    simp only [Except.toOption, Option.some.injEq] at h
    rw [h]

/-- The only error of the float64 `MarketMaker.getCoin` is the illegal-name error. -/
theorem maker64_getCoin_error (m : B64.MarketMaker) (name e : String)
    (h : m.getCoin name = Except.error e) : e = "failed to get coin: illegal coin name" := by
  unfold B64.MarketMaker.getCoin at h
  split_ifs at h
  injection h with h
  exact h.symm

/-- The only error of the first loop is the illegal-name error. -/
theorem sumCoins64_error (coinname : String) (l : List (String × B64.MarketMaker)) (acc : F64)
    (e : String) (h : B64.sumCoins coinname l acc = Except.error e) :
    e = "failed to get coin: illegal coin name" := by
  induction l generalizing acc with
  | nil => simp [B64.sumCoins] at h
  | cons e0 rest ih =>
    obtain ⟨k, v⟩ := e0
    simp only [B64.sumCoins] at h
    cases hg : v.getCoin coinname with
    | error err =>
      simp only [hg, Except.error.injEq] at h
      subst h
      exact maker64_getCoin_error v coinname err hg
    | ok s =>
      simp only [hg] at h
      exact ih _ h

/-- When the first loop gives a total every maker holds the named coin. -/
theorem sumCoins64_getCoin (coinname : String) (l : List (String × B64.MarketMaker))
    (acc T : F64) (h : B64.sumCoins coinname l acc = Except.ok T)
    (e : String × B64.MarketMaker) (he : e ∈ l) :
    ∃ s, e.2.getCoin coinname = Except.ok s := by
  induction l generalizing acc with
  | nil => simp at he
  | cons e0 rest ih =>
    obtain ⟨k, v⟩ := e0
    simp only [B64.sumCoins] at h
    cases hg : v.getCoin coinname with
    | error err => simp [hg] at h
    | ok s =>
      simp only [hg] at h
      rcases List.mem_cons.mp he with rfl | hmem
      · exact ⟨s, hg⟩
      · exact ih _ h hmem

/-- The second loop, when every maker holds the named coin, credits every entry and returns no
error. -/
theorem payFees64_eq_map (coinname : String) (T fee : F64)
    (l : List (String × B64.MarketMaker))
    (h : ∀ e ∈ l, ∃ s, e.2.getCoin coinname = Except.ok s) :
    B64.payFees coinname T fee l = (none, l.map (B64.creditMaker coinname T fee)) := by
  induction l with
  | nil => rfl
  | cons e0 rest ih =>
    obtain ⟨k, v⟩ := e0
    obtain ⟨s, hs⟩ := h (k, v) (List.mem_cons_self _ _)
    have hrest := ih (fun e he => h e (List.mem_cons_of_mem _ he))
    simp only [B64.payFees, hs, hrest, List.map_cons, B64.creditMaker]
    cases s <;> rfl

/-- The float64 `shareFee` when the first loop gives a total. -/
theorem shareFee64_eq (cp : B64.CoinPair) (coinname : String) (fee T : F64)
    (hT : B64.sumCoins coinname cp.makers (F64.fin 0) = Except.ok T) :
    cp.shareFee coinname fee =
      (none, { cp with makers := cp.makers.map (B64.creditMaker coinname T fee) }) := by
  unfold B64.CoinPair.shareFee
  simp only [hT, payFees64_eq_map coinname T fee cp.makers
    (sumCoins64_getCoin coinname cp.makers (F64.fin 0) T hT)]

/-- Reading the coin of a float64 maker that was just updated. -/
theorem maker64_coin_modifyCoin_same (m : B64.MarketMaker) (s : Slot)
    (f : B64.Coin → B64.Coin) : (m.modifyCoin s f).coin s = f (m.coin s) := by
  cases s <;> rfl

/-- Reading the coin of a float64 maker that was not updated. -/
theorem maker64_coin_modifyCoin_other (m : B64.MarketMaker) (s : Slot)
    (f : B64.Coin → B64.Coin) : (m.modifyCoin s f).coin s.other = m.coin s.other := by
  cases s <;> rfl

/-- C15 (as stated, refuted): in the float64 program, on the pool where p0 holds 0.1 A and p1
holds 0.3 A (built by `NewCoinPair "A-B" 0.1 0.1 0.003 "p0"` and `AddLiquid` of 0.3/0.3 by p1),
the total of A is 0.4 and `shareFee "A" 10` leaves p1 with 7.799999999999999 A, while
`0.3 + 10 * 0.3 / 0.4` is 7.8: the credit is not `fee * s / T`, neither as float64 operations
nor as an exact quotient of the stored values. -/
theorem shareFee64_not_exact :
    B64.sumCoins "A" B64.pool01_03.makers (F64.fin 0) = Except.ok (F64.lit (4/10)) ∧
      B64.lookupMaker "p1" B64.pool01_03.makers =
        some ⟨"", ⟨"A", F64.lit (3/10)⟩, ⟨"B", F64.lit (3/10)⟩⟩ ∧
      B64.lookupMaker "p1" (B64.pool01_03.shareFee "A" (F64.lit 10)).2.makers =
        some ⟨"", ⟨"A", F64.fin (4391009636686233 / 562949953421312)⟩,
          ⟨"B", F64.lit (3/10)⟩⟩ ∧
      F64.add (F64.lit (3/10)) (F64.div (F64.mul (F64.lit 10) (F64.lit (3/10))) (F64.lit (4/10))) =
        F64.fin (8782019273372467 / 1125899906842624) ∧
      (4391009636686233 / 562949953421312 : ℚ) - (F64.lit (3/10)).toRat ≠
        10 * (F64.lit (3/10)).toRat / (F64.lit (4/10)).toRat := by
  refine ⟨except_ok_of_toOption _ _ (by decide!), by decide!, by decide!, by decide!,
    by decide!⟩

/-- C15 (amended): in the float64 program, when every maker holds the coin named `coinname`
(the first loop of `shareFee` gives the float64 total `T`), `shareFee coinname fee` returns no
error; the coins of the pool, `totalK` and `feeRate` are unchanged; and every maker keeps its
key, has its amount `s` of that coin replaced by `s + s / T * fee` with each operation rounded
as the program performs it, and keeps that coin's name and its other coin. -/
theorem shareFee64_proportional (cp : B64.CoinPair) (coinname : String) (fee T : F64)
    (hT : B64.sumCoins coinname cp.makers (F64.fin 0) = Except.ok T) :
    (cp.shareFee coinname fee).1 = none ∧
      (cp.shareFee coinname fee).2.CoinA = cp.CoinA ∧
      (cp.shareFee coinname fee).2.CoinB = cp.CoinB ∧
      (cp.shareFee coinname fee).2.totalK = cp.totalK ∧
      (cp.shareFee coinname fee).2.feeRate = cp.feeRate ∧
      List.Forall₂
        (fun e e' => e'.1 = e.1 ∧
          ∃ s, e.2.getCoin coinname = Except.ok s ∧
            (e'.2.coin s).Amount =
              F64.add (e.2.coin s).Amount (F64.mul (F64.div (e.2.coin s).Amount T) fee) ∧
            (e'.2.coin s).Name = (e.2.coin s).Name ∧
            e'.2.coin s.other = e.2.coin s.other)
        cp.makers (cp.shareFee coinname fee).2.makers := by
  rw [shareFee64_eq cp coinname fee T hT]
  refine ⟨rfl, rfl, rfl, rfl, rfl, ?_⟩
  simp only
  rw [List.forall₂_map_right_iff, List.forall₂_same]
  intro e he
  obtain ⟨s, hs⟩ := sumCoins64_getCoin coinname cp.makers (F64.fin 0) T hT e he
  simp only [B64.creditMaker, hs, true_and]
  refine ⟨s, rfl, ?_, ?_, maker64_coin_modifyCoin_other _ _ _⟩
  · rw [maker64_coin_modifyCoin_same]
  · rw [maker64_coin_modifyCoin_same]

/-- C15 (amended) on the float64 pool where p0 holds 0.1 A and p1 holds 0.3 A, with the fee
10: the total is 0.4, no error is returned, and every maker's A amount `s` becomes
`s + s / 0.4 * 10` as rounded by the program. -/
theorem shareFee64_proportional_witness :
    B64.sumCoins "A" B64.pool01_03.makers (F64.fin 0) = Except.ok (F64.lit (4/10)) ∧
      (B64.pool01_03.shareFee "A" (F64.lit 10)).1 = none ∧
      List.Forall₂
        (fun e e' => e'.1 = e.1 ∧
          ∃ s, e.2.getCoin "A" = Except.ok s ∧
            (e'.2.coin s).Amount =
              F64.add (e.2.coin s).Amount
                (F64.mul (F64.div (e.2.coin s).Amount (F64.lit (4/10))) (F64.lit 10)) ∧
            (e'.2.coin s).Name = (e.2.coin s).Name ∧
            e'.2.coin s.other = e.2.coin s.other)
        B64.pool01_03.makers (B64.pool01_03.shareFee "A" (F64.lit 10)).2.makers :=
  have hT : B64.sumCoins "A" B64.pool01_03.makers (F64.fin 0) = Except.ok (F64.lit (4/10)) :=
    except_ok_of_toOption _ _ (by decide!)
  ⟨hT, (shareFee64_proportional B64.pool01_03 "A" (F64.lit 10) (F64.lit (4/10)) hT).1,
    (shareFee64_proportional B64.pool01_03 "A" (F64.lit 10) (F64.lit (4/10)) hT).2.2.2.2.2⟩

/-- C18 (as stated, refuted): in the float64 program, on the pool of
`NewCoinPair "A-B" 0 1000 0.003 "p0"` the makers' total of coin A is zero, and `shareFee "A" 1`
returns no error: it performs `0 / 0 * 1` and leaves p0 with a NaN amount of A. -/
theorem shareFee64_zero_total :
    B64.NewCoinPair "A-B" (F64.lit 0) (F64.lit 1000) (F64.lit (3/1000)) "p0" =
        Except.ok B64.pool0_1000 ∧
      B64.sumCoins "A" B64.pool0_1000.makers (F64.fin 0) = Except.ok (F64.fin 0) ∧
      B64.pool0_1000.shareFee "A" (F64.lit 1) =
        (none, { B64.pool0_1000 with
          makers := [("p0", ⟨"", ⟨"A", F64.nan⟩, ⟨"B", F64.fin 1000⟩⟩)] }) :=
  ⟨NewCoinPair64_poolP0 _ _ _, except_ok_of_toOption _ _ (by decide!), by decide!⟩

/-- C18 (amended): the float64 `shareFee` has no error for a zero total. When it returns an
error, the error is "failed to get coin: illegal coin name", it comes from the first loop (some
maker does not hold the named coin) and the pool is unchanged; and whenever the first loop gives
a total, zero or not, `shareFee` returns no error. -/
theorem shareFee64_errors (cp : B64.CoinPair) (coinname : String) (fee : F64) :
    (∀ e, (cp.shareFee coinname fee).1 = some e →
        e = "failed to get coin: illegal coin name" ∧ (cp.shareFee coinname fee).2 = cp ∧
        B64.sumCoins coinname cp.makers (F64.fin 0) = Except.error e) ∧
      (∀ T, B64.sumCoins coinname cp.makers (F64.fin 0) = Except.ok T →
        (cp.shareFee coinname fee).1 = none) := by
  constructor
  · intro e h
    cases hs : B64.sumCoins coinname cp.makers (F64.fin 0) with
    | error err =>
      have hsh : cp.shareFee coinname fee = (some err, cp) := by
        unfold B64.CoinPair.shareFee
        simp only [hs]
      rw [hsh] at h ⊢
      simp only [Option.some.injEq] at h
      subst h
      exact ⟨sumCoins64_error coinname cp.makers (F64.fin 0) err hs, rfl, rfl⟩
    | ok T =>
      rw [shareFee64_eq cp coinname fee T hs] at h
      simp at h
  · intro T hT
    rw [shareFee64_eq cp coinname fee T hT]

/-- C18 (amended) on float64 pools: with the zero total of coin A on the pool of
`NewCoinPair "A-B" 0 1000 0.003 "p0"` no error is returned, and on the 1000/1000 pool the
unknown name "C" is the error of `shareFee`, with the pool unchanged. -/
theorem shareFee64_errors_witness :
    B64.sumCoins "A" B64.pool0_1000.makers (F64.fin 0) = Except.ok (F64.fin 0) ∧
      (B64.pool0_1000.shareFee "A" (F64.lit 1)).1 = none ∧
      (B64.pool1000.shareFee "C" (F64.lit 1)).1 =
        some "failed to get coin: illegal coin name" ∧
      (B64.pool1000.shareFee "C" (F64.lit 1)).2 = B64.pool1000 :=
  have hT : B64.sumCoins "A" B64.pool0_1000.makers (F64.fin 0) = Except.ok (F64.fin 0) :=
    except_ok_of_toOption _ _ (by decide!)
  have hC : (B64.pool1000.shareFee "C" (F64.lit 1)).1 =
      some "failed to get coin: illegal coin name" := by decide!
  ⟨hT, (shareFee64_errors B64.pool0_1000 "A" (F64.lit 1)).2 _ hT, hC,
    ((shareFee64_errors B64.pool1000 "C" (F64.lit 1)).1 _ hC).2.1⟩

end coin
